import Mathlib

/-!
# printk: a shallow embedding of `printk.c`

The C program is a small `printf`-style formatter.  Every function of the
source is translated to a Lean function of the same name:

* C strings are lists of characters, the terminating NUL left implicit; a
  pointer into a string is the suffix that starts at it;
* the 20-character `format_buffer` is a list of 20 characters;
* `int` values are integers, wrapped to 32 bits where the source can overflow;
* the host console (`print`, `printchar`) is the list of the calls made to it;
* the `va_list` is the list of the arguments not yet consumed;
* loops are structural recursions; where a bound is not syntactic a fuel
  argument is used and running out of it is the result `none`.
-/

namespace Printk

/-! ## Constants and types -/

/-- The constant `#define FORMAT_BUFFER_SIZE 20`. -/
def FORMAT_BUFFER_SIZE : Nat := 20

/-- The constant `#define JUSTIFY_RIGHT 0`. -/
def JUSTIFY_RIGHT : Int := 0

/-- The constant `#define JUSTIFY_LEFT 1`. -/
def JUSTIFY_LEFT : Int := 1

/-- The type `enum Flags`. -/
inductive Flags where
  | FLAGS_NONE
  | FLAGS_LEFT_JUSTIFY
  | FLAGS_FORCE_SIGN
  | FLAGS_SPACE
  | FLAGS_DECIMAL
  | FLAGS_LEFT_PAD
  deriving DecidableEq, Repr

open Flags

/-- The type `struct Specifier`. -/
structure Specifier where
  width : Int
  precision : Int
  flags : Flags
  type : Char
  deriving DecidableEq, Repr

/-- The NUL character that terminates a C string. -/
def NUL : Char := Char.ofNat 0

/-- Two's-complement wrap of an integer to the range of a 32-bit `int`. -/
def wrap32 (v : Int) : Int := (v + 2147483648) % 4294967296 - 2147483648

/-- The value `*p` of a pointer into a C string: the head of the suffix, NUL at
the terminator. -/
def deref : List Char → Char
  | [] => NUL
  | c :: _ => c

/-- The C string stored in a character array: the characters before the first
NUL, or `none` when the array holds no NUL (reading it runs off the array). -/
def cstring : List Char → Option (List Char)
  | [] => none
  | c :: rest => if c = NUL then some [] else (cstring rest).map (fun t => c :: t)

/-! ## The console -/

/-- One call to the host console: `print( data )` or `printchar( data )`. -/
inductive Call where
  | print (data : List Char)
  | printchar (data : Char)
  deriving DecidableEq, Repr

/-- The characters a console call writes.  `printchar( data )` writes the one
character; `print( data )` hands `data` to the host's `printf` as its format,
and the console is taken to write the characters of `data` as they are (the
write-string primitive of the specification), which is what `printf` does for
a string without '%'. -/
def Call.text : Call → List Char
  | Call.print data => data
  | Call.printchar data => [data]

/-- The text on the console after a sequence of calls. -/
def written (calls : List Call) : List Char := calls.flatMap Call.text

/-! ## `reverse_notnull` -/

/-- The `for( ; len > 0; len-- )` loop of `reverse_notnull`; the first argument is
the loop variable `len`. -/
def reverse_notnull_loop : Nat → Nat → List Char → List Char
  | 0, _, string => string
  | len + 1, location, string =>
    if string.getD (len + 1) NUL = NUL then reverse_notnull_loop len location string
    else if len + 1 < location then string
    else
      let tmp := string.getD (len + 1) NUL
      let string := string.set (len + 1) (string.getD location NUL)
      let string := string.set location tmp
      reverse_notnull_loop len (location + 1) string

/-- The function `static void reverse_notnull( char* string, int len )`. -/
def reverse_notnull (string : List Char) (len : Nat) : List Char :=
  reverse_notnull_loop (len - 1) 0 string

/-! ## `format_integer` -/

/-- The digit alphabet `characters` of `format_integer`. -/
def characters : List Char := "0123456789abcdefghijklmnopqrstuvwxyz".toList

/-- The digit written for `char_idx`: `characters[ char_idx ]`, moved to upper
case (`- 32`) when it lies in 'a'..'z' and `capitalize` is set.  The index is
`number % base`, inside the alphabet for every base up to 36; the terminator
that follows the alphabet is NUL. -/
def digit_char (char_idx : Int) (capitalize : Bool) : Char :=
  let c := characters.getD char_idx.toNat NUL
  if 97 ≤ c.toNat ∧ c.toNat ≤ 122 ∧ capitalize = true then Char.ofNat (c.toNat - 32) else c

/-- State of `format_integer` when its digit loop is left. -/
structure Digits where
  location : List Char
  x : Nat
  not_big_enough : Bool
  deriving DecidableEq, Repr

/-- The `while( number > 0 )` loop of `format_integer`.  `not_big_enough` is
set when the loop is left through `return` (`x >= len`).  The first argument is
fuel; `none` means the fuel ran out. -/
def format_integer_digits : Nat → Nat → Int → Bool → Int → Nat → List Char → Option Digits
  | 0, _, _, _, _, _, _ => none
  | fuel + 1, len, base, capitalize, number, x, location =>
    if number > 0 then
      let char_idx := Int.tmod number base
      let location := location.set x (digit_char char_idx capitalize)
      let x := x + 1
      let number := Int.tdiv number base
      if x ≥ len then some ⟨location, x, true⟩
      else format_integer_digits fuel len base capitalize number x location
    else some ⟨location, x, false⟩

/-- The zero padding loop `while( x < specifier->width && x < len )`; the first
argument counts the cells left in the buffer (`len - x`). -/
def format_integer_pad : Nat → Int → Nat → Nat → List Char → List Char × Nat
  | 0, _, _, x, location => (location, x)
  | room + 1, width, len, x, location =>
    if (x : Int) < width ∧ x < len then
      format_integer_pad room width len (x + 1) (location.set x '0')
    else (location, x)

/-- The loop `for( ; x < len; x++ ) location[ x ] = 0`; the first argument
counts the cells left in the buffer (`len - x`). -/
def format_integer_null : Nat → Nat → List Char → List Char
  | 0, _, location => location
  | room + 1, x, location => format_integer_null room (x + 1) (location.set x NUL)

/-- The sign step of `format_integer` (`if( negative && base == 10 ) ... else if
...`): the buffer and `x` after it. -/
def format_integer_sign (negative : Bool) (base : Int) (specifier : Specifier) (x : Nat)
    (location : List Char) : List Char × Nat :=
  if negative = true ∧ base = 10 then (location.set x '-', x + 1)
  else if negative = false ∧ base = 10 ∧ specifier.flags = FLAGS_FORCE_SIGN then
    (location.set x '+', x + 1)
  else (location, x)

/-- The zero padding step of `format_integer`
(`if( specifier->flags == FLAGS_LEFT_PAD && specifier->width > x )`). -/
def format_integer_zero_pad (specifier : Specifier) (len : Nat) (x : Nat)
    (location : List Char) : List Char × Nat :=
  if specifier.flags = FLAGS_LEFT_PAD ∧ specifier.width > (x : Int) then
    format_integer_pad (len - x) specifier.width len x location
  else (location, x)

/-- The outcome of `format_integer`: the buffer it leaves, and whether it gave
up with "buffer not big enough". -/
structure Formatted where
  location : List Char
  not_big_enough : Bool
  deriving DecidableEq, Repr

/-- The function `static void format_integer( char* location, int len, int number,
int base, int capitalize, struct Specifier* specifier )`.  The negation `number *= -1`
is taken modulo 2^32.  `none` only if the digit loop ran out of fuel. -/
def format_integer (location : List Char) (len : Nat) (number : Int) (base : Int)
    (capitalize : Bool) (specifier : Specifier) : Option Formatted :=
  let negative := decide (number < 0)
  let number := if negative = true then wrap32 (number * -1) else number
  let zero := if number = 0 then (location.set 0 (characters.getD 0 NUL), 1) else (location, 0)
  match format_integer_digits (len + 1) len base capitalize number zero.2 zero.1 with
  | none => none
  | some digits =>
    if digits.not_big_enough = true then some ⟨digits.location, true⟩
    else
      let sign := format_integer_sign negative base specifier digits.x digits.location
      let pad := format_integer_zero_pad specifier len sign.2 sign.1
      let location := format_integer_null (len - pad.2) pad.2 pad.1
      some ⟨reverse_notnull location len, false⟩

/-! ## The specifier grammar -/

/-- The function `static enum Flags parse_flag( char c )`. -/
def parse_flag (c : Char) : Flags :=
  if c = '-' then FLAGS_LEFT_JUSTIFY
  else if c = '+' then FLAGS_FORCE_SIGN
  else if c = ' ' then FLAGS_SPACE
  else if c = '#' then FLAGS_DECIMAL
  else if c = '0' then FLAGS_LEFT_PAD
  else FLAGS_NONE

/-- The function `static int ascii_to_int( char c )`. -/
def ascii_to_int (c : Char) : Int :=
  if c = '9' then 9
  else if c = '8' then 8
  else if c = '7' then 7
  else if c = '6' then 6
  else if c = '5' then 5
  else if c = '4' then 4
  else if c = '3' then 3
  else if c = '2' then 2
  else if c = '1' then 1
  else if c = '0' then 0
  else -1

/-- The digit loop of `printk_parse_width`, on the suffix `string` points to;
the additions wrap at 32 bits. -/
def printk_parse_width_loop : List Char → Int → Nat → Int × Nat
  | [], width, chars_consumed => (width, chars_consumed)
  | c :: string, width, chars_consumed =>
    if 48 ≤ c.toNat ∧ c.toNat ≤ 57 ∧ c ≠ '.' then
      printk_parse_width_loop string (wrap32 (wrap32 (width * 10) + ascii_to_int c))
        (chars_consumed + 1)
    else (width, chars_consumed)

/-- The function `static int printk_parse_width( const char* string, int*
chars_consumed )`: the returned width and `*chars_consumed`. -/
def printk_parse_width (string : List Char) : Int × Nat :=
  if deref string = NUL then (0, 0)
  else if deref string = '*' then (-1, 1)
  else printk_parse_width_loop string 0 0

/-- The digit loop of `printk_parse_precision`. -/
def printk_parse_precision_loop : List Char → Int → Nat → Int × Nat
  | [], precision, chars_consumed => (precision, chars_consumed)
  | c :: string, precision, chars_consumed =>
    if 48 ≤ c.toNat ∧ c.toNat ≤ 57 then
      printk_parse_precision_loop string (wrap32 (wrap32 (precision * 10) + ascii_to_int c))
        (chars_consumed + 1)
    else (precision, chars_consumed)

/-- The function `static int printk_parse_precision( const char* string, int*
chars_consumed )`: the returned precision and `*chars_consumed`.  The '.' is
skipped but not counted in `*chars_consumed`. -/
def printk_parse_precision (string : List Char) : Int × Nat :=
  if deref string = NUL ∨ deref string ≠ '.' then (0, 0)
  else printk_parse_precision_loop (string.drop 1) 0 0

/-- The function `static int parse_specifier( const char* format, int start, int len,
struct Specifier* specifier )`: the returned count and the specifier it leaves.
Pointers into `format` are indices; `end` is the index `len`. -/
def parse_specifier (format : List Char) (start : Nat) (len : Nat) (specifier : Specifier) :
    Int × Specifier :=
  let location := start + 1
  if deref (format.drop location) = '%' then (1, { specifier with type := '%' })
  else
    let specifier := { specifier with flags := parse_flag (deref (format.drop location)) }
    let (location, total_consumed) :=
      if specifier.flags ≠ FLAGS_NONE then (location + 1, 1) else (location, 0)
    if location ≥ len then (-1, specifier)
    else
      let (width, chars_consumed) := printk_parse_width (format.drop location)
      let specifier := { specifier with width := width }
      let location := location + chars_consumed
      let total_consumed := total_consumed + chars_consumed
      if location ≥ len then (-1, specifier)
      else
        let (precision, chars_consumed) := printk_parse_precision (format.drop location)
        let specifier := { specifier with precision := precision }
        let location := location + chars_consumed
        let total_consumed := total_consumed + chars_consumed
        if location ≥ len then (-1, specifier)
        else
          (((total_consumed + 1 : Nat) : Int),
            { specifier with type := deref (format.drop location) })

/-! ## `print_string` -/

/-- The characters of a C string held in `data`: those before the first NUL. -/
def c_str (data : List Char) : List Char := data.takeWhile (fun c => c ≠ NUL)

/-- The library function `strlen`. -/
def strlen (data : List Char) : Nat := (c_str data).length

/-- The function `static void print_string( const char* string, int min_chars,
int justify )`: the console calls it makes, in order. -/
def print_string (string : List Char) (min_chars : Int) (justify : Int) : List Call :=
  let stringlen : Int := strlen string
  if min_chars = 0 ∨ stringlen = min_chars then [Call.print (c_str string)]
  else if stringlen < min_chars ∧ justify = JUSTIFY_RIGHT then
    List.replicate (min_chars - stringlen).toNat (Call.print [' ']) ++ [Call.print (c_str string)]
  else if stringlen < min_chars ∧ justify = JUSTIFY_LEFT then
    Call.print (c_str string) :: List.replicate (min_chars - stringlen).toNat (Call.print [' '])
  else []

/-! ## `printk` -/

/-- One variadic argument, as the caller passed it. -/
inductive Arg where
  | int (v : Int)
  | str (s : List Char)
  deriving DecidableEq, Repr

/-- What the local `char* toprint` of `printk` points to. -/
inductive ToPrint where
  | indeterminate
  | format_buffer
  | arg (s : List Char)
  deriving DecidableEq, Repr

/-- The ways a call of `printk` leaves defined behaviour. -/
inductive Fault where
  | read_outside_format (index : Int)
  | toprint_indeterminate
  | format_buffer_unterminated
  | va_arg_mismatch
  deriving DecidableEq, Repr

/-- The variables of `printk` that live across loop iterations, with the console. -/
structure State where
  current_location : Int
  args : List Arg
  format_buffer : List Char
  toprint : ToPrint
  console : List Call
  deriving DecidableEq, Repr

/-- The result of one iteration of the loop of `printk`. -/
inductive Step where
  | loop (st : State)
  | returned (st : State)
  | undefined (why : Fault) (st : State)
  deriving DecidableEq, Repr

/-- The read `format[ index ]`: defined for the characters of the string and its
terminator. -/
def format_at (format : List Char) (index : Int) : Option Char :=
  if 0 ≤ index ∧ index ≤ (format.length : Int) then some (deref (format.drop index.toNat))
  else none

/-- The macro call `va_arg(args,int)`: the next argument, which must be an `int`. -/
def va_arg_int : List Arg → Option (Int × List Arg)
  | Arg.int v :: rest => some (v, rest)
  | _ => none

/-- The macro call `va_arg(args,char*)`: the next argument, which must be a string. -/
def va_arg_str : List Arg → Option (List Char × List Arg)
  | Arg.str s :: rest => some (s, rest)
  | _ => none

/-- Conversion of an `int` to `char`: its low 8 bits. -/
def char_of_int (v : Int) : Char := Char.ofNat (v % 256).toNat

/-- The string `toprint` points to when `print_string` reads it. -/
def toprint_string (st : State) : Except Fault (List Char) :=
  match st.toprint with
  | ToPrint.indeterminate => Except.error Fault.toprint_indeterminate
  | ToPrint.arg s => Except.ok s
  | ToPrint.format_buffer =>
    match cstring st.format_buffer with
    | none => Except.error Fault.format_buffer_unterminated
    | some s => Except.ok s

/-- The `switch( specifier.type )` of `printk` and the `if( base )` after it:
the state it leaves (arguments consumed, buffer, `toprint`, console).  `none`
only when `format_integer` runs out of fuel. -/
def printk_switch (specifier : Specifier) (st : State) : Option (Except Fault State) :=
  let type := specifier.type
  if type = '%' then
    some (Except.ok { st with console := st.console ++ [Call.print ['%']] })
  else if type = 'd' ∨ type = 'i' ∨ type = 'x' ∨ type = 'X' ∨ type = 'p' then
    let base : Int := if type = 'd' ∨ type = 'i' then 10 else 16
    let uppercase : Bool := if type = 'd' ∨ type = 'i' then false else decide (type = 'X')
    match va_arg_int st.args with
    | none => some (Except.error Fault.va_arg_mismatch)
    | some (number, rest) =>
      match format_integer st.format_buffer FORMAT_BUFFER_SIZE number base uppercase specifier with
      | none => none
      | some formatted =>
        some (Except.ok { st with args := rest, format_buffer := formatted.location,
                                  toprint := ToPrint.format_buffer })
  else if type = 's' then
    match va_arg_str st.args with
    | none => some (Except.error Fault.va_arg_mismatch)
    | some (s, rest) => some (Except.ok { st with args := rest, toprint := ToPrint.arg s })
  else if type = 'c' then
    match va_arg_int st.args with
    | none => some (Except.error Fault.va_arg_mismatch)
    | some (v, rest) =>
      some (Except.ok { st with args := rest,
                                format_buffer := (st.format_buffer.set 0 (char_of_int v)).set 1 NUL,
                                toprint := ToPrint.format_buffer })
  else some (Except.ok st)

/-- What `printk` does with a parsed specifier: the `switch`, the `if( base )`
and the call `print_string( toprint, specifier.width, specifier.flags ==
FLAGS_LEFT_JUSTIFY )`.  An error carries the state reached. -/
def printk_directive (specifier : Specifier) (st : State) :
    Option (Except (Fault × State) State) :=
  match printk_switch specifier st with
  | none => none
  | some (Except.error why) => some (Except.error (why, st))
  | some (Except.ok st) =>
    match toprint_string st with
    | Except.error why => some (Except.error (why, st))
    | Except.ok string =>
      let justify : Int := if specifier.flags = FLAGS_LEFT_JUSTIFY then 1 else 0
      some (Except.ok
        { st with console := st.console ++ print_string string specifier.width justify })

/-- The end of an iteration of `printk`:
`if( format[ current_location ] != 0 ) current_location++`. -/
def printk_advance (format : List Char) (st : State) : Step :=
  match format_at format st.current_location with
  | none => Step.undefined (Fault.read_outside_format st.current_location) st
  | some c =>
    if c ≠ NUL then Step.loop { st with current_location := st.current_location + 1 }
    else Step.loop st

/-- One iteration of `while( format[ current_location ] != 0 )`; `none` only
when `format_integer` runs out of fuel. -/
def printk_step (format : List Char) (len : Nat) (st : State) : Option Step :=
  match format_at format st.current_location with
  | none => some (Step.undefined (Fault.read_outside_format st.current_location) st)
  | some c =>
    if c = NUL then some (Step.returned st)
    else if c = '%' then
      let parsed := parse_specifier format st.current_location.toNat len ⟨0, 0, FLAGS_NONE, NUL⟩
      let st := { st with current_location := st.current_location + parsed.1 }
      match printk_directive parsed.2 st with
      | none => none
      | some (Except.error (why, st)) => some (Step.undefined why st)
      | some (Except.ok st) => some (printk_advance format st)
    else
      some (printk_advance format { st with console := st.console ++ [Call.printchar c] })

/-- How a call of `printk` ends. -/
inductive Outcome where
  | returned (console : List Call) (args : List Arg)
  | undefined (why : Fault) (console : List Call)
  deriving DecidableEq, Repr

/-- The loop of `printk`, at most `fuel` iterations; `none` when it is still
running after them. -/
def printk_loop : Nat → List Char → Nat → State → Option Outcome
  | 0, _, _, _ => none
  | fuel + 1, format, len, st =>
    match printk_step format len st with
    | none => none
    | some (Step.loop st) => printk_loop fuel format len st
    | some (Step.returned st) => some (Outcome.returned st.console st.args)
    | some (Step.undefined why st) => some (Outcome.undefined why st.console)

/-- The state of `printk` when it enters its loop.  The buffer and `toprint`
are not set by the source; no cell of the buffer is read before it is written. -/
def printk_start (args : List Arg) : State :=
  ⟨0, args, List.replicate FORMAT_BUFFER_SIZE NUL, ToPrint.indeterminate, []⟩

/-- The function `int printk( const char* format, ... )`, run for at most `fuel`
iterations of its loop. -/
def printk (fuel : Nat) (format : List Char) (args : List Arg) : Option Outcome :=
  printk_loop fuel format (strlen format) (printk_start args)

/-! ## Notions used to state the properties -/

/-- The numeral of `m` in base `base`: the digits `Nat.toDigits` gives, most
significant first and without leading zeros ("0" for zero), in upper case when
`capitalize` is set. -/
def numeral (base : Nat) (capitalize : Bool) (m : Nat) : List Char :=
  if capitalize then (Nat.toDigits base m).map Char.toUpper else Nat.toDigits base m

/-- The sign `format_integer` writes after the digits: "-" for a negative number
in base 10, "+" for a non-negative one in base 10 under the force-sign flag. -/
def sign_text (number : Int) (base : Int) (flags : Flags) : List Char :=
  if number < 0 ∧ base = 10 then ['-']
  else if 0 ≤ number ∧ base = 10 ∧ flags = Flags.FLAGS_FORCE_SIGN then ['+']
  else []

/-- The number of '0' characters `format_integer` pads with, given the `taken`
characters of digits and sign. -/
def pad_count (specifier : Specifier) (len : Nat) (taken : Nat) : Nat :=
  if specifier.flags = Flags.FLAGS_LEFT_PAD then min specifier.width.toNat len - taken else 0

/-- The layout of the text `format_integer` leaves at the start of its buffer:
the zero padding, the sign, the numeral of the magnitude. -/
def token_text (number : Int) (base : Nat) (capitalize : Bool) (specifier : Specifier)
    (len : Nat) : List Char :=
  List.replicate
      (pad_count specifier len
        ((sign_text number base specifier.flags).length
          + (numeral base capitalize number.natAbs).length)) '0'
    ++ sign_text number base specifier.flags
    ++ numeral base capitalize number.natAbs

/-- The value of a decimal digit character. -/
def decimal_value (c : Char) : Option Nat :=
  if 48 ≤ c.toNat ∧ c.toNat ≤ 57 then some (c.toNat - 48) else none

/-- The value of a hexadecimal digit character, in either case. -/
def hex_value (c : Char) : Option Nat :=
  if 48 ≤ c.toNat ∧ c.toNat ≤ 57 then some (c.toNat - 48)
  else if 97 ≤ c.toNat ∧ c.toNat ≤ 102 then some (c.toNat - 87)
  else if 65 ≤ c.toNat ∧ c.toNat ≤ 70 then some (c.toNat - 55)
  else none

/-- Reading a text as a number in base `base`, most significant digit first,
from the accumulator `acc`; `none` at a character that is no digit. -/
def decode_digits (base : Nat) (value : Char → Option Nat) : List Char → Nat → Option Nat
  | [], acc => some acc
  | c :: text, acc =>
    match value c with
    | none => none
    | some d => decode_digits base value text (acc * base + d)

/-- Decoding a text as a base-10 number; the empty text is no number. -/
def decode_decimal (text : List Char) : Option Nat :=
  if text = [] then none else decode_digits 10 decimal_value text 0

/-- Decoding a text as a hexadecimal number, case-insensitively; the empty text
is no number. -/
def decode_hex (text : List Char) : Option Nat :=
  if text = [] then none else decode_digits 16 hex_value text 0

/-- The token `format_integer` leaves in a buffer: the C string at its start. -/
def token (formatted : Option Formatted) : Option (List Char) :=
  formatted.bind (fun f => cstring f.location)

/-- The longest run of decimal digits at the start of a string. -/
def digit_run (string : List Char) : List Char :=
  string.takeWhile (fun c => decide (48 ≤ c.toNat ∧ c.toNat ≤ 57))

/-- The map of the letters a-f to A-F (`- 32`); other characters are left as
they are. -/
def hex_upper (c : Char) : Char :=
  if 97 ≤ c.toNat ∧ c.toNat ≤ 102 then Char.ofNat (c.toNat - 32) else c

/-- The conversion types at which the `switch` of `printk` (with the `if( base )`
after it) calls `va_arg`: d, i, x, X, p, s and c. -/
def consumes_argument (type : Char) : Bool :=
  decide (type = 'd' ∨ type = 'i' ∨ type = 'x' ∨ type = 'X' ∨ type = 'p' ∨ type = 's'
    ∨ type = 'c')

/-- The directives of a run of `printk`: the specifiers `parse_specifier` leaves at
the '%' characters at which the iterations of the loop start, in order, for at
most `fuel` iterations from the state `st`. -/
def printk_directives : Nat → List Char → Nat → State → List Specifier
  | 0, _, _, _ => []
  | fuel + 1, format, len, st =>
    let here :=
      if format_at format st.current_location = some '%' then
        [(parse_specifier format st.current_location.toNat len ⟨0, 0, Flags.FLAGS_NONE, NUL⟩).2]
      else []
    match printk_step format len st with
    | some (Step.loop next) => here ++ printk_directives fuel format len next
    | _ => here

/-- The states in which the iterations of the loop of `printk` start, in a run
that enters the loop in the state `first`. -/
inductive printk_reaches (format : List Char) (len : Nat) (first : State) : State → Prop where
  | start : printk_reaches format len first first
  | step (st next : State) : printk_reaches format len first st →
      printk_step format len st = some (Step.loop next) → printk_reaches format len first next

/-! ## Lemmas on the loops of `format_integer` and `reverse_notnull` -/

theorem getD_at_length (a : List Char) (c : Char) (r : List Char) (d : Char) :
    (a ++ c :: r).getD a.length d = c := by
  induction a with
  | nil => rfl
  | cons h t ih => simpa using ih

theorem set_at_length (a : List Char) (c : Char) (r : List Char) (x : Char) :
    (a ++ c :: r).set a.length x = a ++ x :: r := by
  induction a with
  | nil => rfl
  | cons h t ih => simp

theorem getD_ne_NUL_of_lt (a b : List Char) (i : Nat) (hi : i < a.length)
    (ha : ∀ c ∈ a, c ≠ NUL) : (a ++ b).getD i NUL ≠ NUL := by
  rw [List.getD_eq_getElem?_getD, List.getElem?_append_left hi, List.getElem?_eq_getElem hi]
  exact ha _ (List.getElem_mem hi)

theorem getD_replicate_append (w : List Char) (n k : Nat) (c d : Char) (h : k < n) :
    (w ++ List.replicate n c).getD (w.length + k) d = c := by
  rw [List.getD_append_right _ _ _ _ (by omega)]
  simp [List.getD_eq_getElem?_getD, List.getElem?_replicate, h]

theorem reverse_loop_stop (i j : Nat) (s : List Char) (hij : i < j)
    (h : i = 0 ∨ s.getD i NUL ≠ NUL) : reverse_notnull_loop i j s = s := by
  cases i with
  | zero => rfl
  | succ k =>
    have hk : s.getD (k + 1) NUL ≠ NUL := by
      rcases h with h | h
      · omega
      · exact h
    rw [reverse_notnull_loop, if_neg hk, if_pos hij]

theorem reverse_loop_break (a b : List Char) (i j : Nat) (hi : i < a.length) (hij : i < j)
    (ha : ∀ c ∈ a, c ≠ NUL) : reverse_notnull_loop i j (a ++ b) = a ++ b :=
  reverse_loop_stop i j (a ++ b) hij (Or.inr (getD_ne_NUL_of_lt a b i hi ha))

theorem reverse_loop_segment (n : Nat) : ∀ (m a b : List Char), m.length = n →
    (∀ c ∈ a, c ≠ NUL) → (∀ c ∈ m, c ≠ NUL) →
    reverse_notnull_loop (a.length + m.length - 1) a.length (a ++ m ++ b)
      = a ++ m.reverse ++ b := by
  induction n using Nat.strong_induction_on with
  | _ n ih =>
    intro m a b hn ha hm
    rcases m with _ | ⟨c, m1⟩
    · rcases Nat.eq_zero_or_pos a.length with h0 | hpos
      · simp [h0, reverse_notnull_loop]
      · simpa using reverse_loop_break a b (a.length - 1) a.length (by omega) (by omega) ha
    · have hc : c ≠ NUL := hm c (by simp)
      rcases List.eq_nil_or_concat m1 with rfl | ⟨m2, d, hm1⟩
      · -- a single character in the middle
        rcases Nat.eq_zero_or_pos a.length with h0 | hpos
        · simp [h0, reverse_notnull_loop]
        · obtain ⟨k, hk⟩ : ∃ k, a.length = k + 1 := ⟨a.length - 1, by omega⟩
          have hidx : (a ++ [c] ++ b).getD (k + 1) NUL = c := by
            rw [← hk]; simpa using getD_at_length a c b NUL
          have hset : (a ++ [c] ++ b).set (k + 1) c = a ++ [c] ++ b := by
            rw [← hk]; simp
          have hlen : a.length + [c].length - 1 = k + 1 := by simp [hk]
          rw [hlen, reverse_notnull_loop, hidx, if_neg hc, hk, if_neg (by omega)]
          simp only [hidx, hset]
          have := reverse_loop_break a ([c] ++ b) k (k + 1 + 1) (by omega) (by omega) ha
          simpa using this
      · -- at least two characters: the two ends are swapped
        rw [List.concat_eq_append] at hm1
        subst hm1
        have hd : d ≠ NUL := hm d (by simp)
        have hlen : a.length + (c :: (m2 ++ [d])).length - 1 = (a.length + m2.length) + 1 := by
          simp; omega
        have hs : a ++ c :: (m2 ++ [d]) ++ b = (a ++ c :: m2) ++ d :: b := by simp
        have hidx : (a ++ c :: (m2 ++ [d]) ++ b).getD (a.length + m2.length + 1) NUL = d := by
          rw [hs]
          have := getD_at_length (a ++ c :: m2) d b NUL
          simpa [Nat.add_assoc] using this
        have hidx0 : (a ++ c :: (m2 ++ [d]) ++ b).getD a.length NUL = c := by
          simpa using getD_at_length a c (m2 ++ [d] ++ b) NUL
        have hset1 : (a ++ c :: (m2 ++ [d]) ++ b).set (a.length + m2.length + 1) c
            = a ++ c :: (m2 ++ [c]) ++ b := by
          rw [hs]
          simp [Nat.add_assoc]
        have hset2 : (a ++ c :: (m2 ++ [c]) ++ b).set a.length d
            = (a ++ [d]) ++ m2 ++ (c :: b) := by
          simp
        rw [hlen, reverse_notnull_loop, hidx, if_neg hd, if_neg (by omega)]
        simp only [hidx, hidx0, hset1, hset2]
        have hlen2 : m2.length < n := by simp at hn; omega
        have := ih m2.length hlen2 m2 (a ++ [d]) (c :: b) rfl (by
            intro x hx
            rcases List.mem_append.1 hx with h | h
            · exact ha x h
            · simp at h; subst h; exact hd)
          (fun x hx => hm x (by simp [hx]))
        simp only [List.length_append, List.length_singleton] at this
        have e : a.length + 1 + m2.length - 1 = a.length + m2.length := by omega
        rw [e] at this
        rw [this]
        simp

theorem reverse_loop_skip (w : List Char) (n : Nat) : ∀ k, k < n →
    reverse_notnull_loop (w.length + k) 0 (w ++ List.replicate n NUL)
      = reverse_notnull_loop w.length 0 (w ++ List.replicate n NUL) := by
  intro k
  induction k with
  | zero => intro _; rfl
  | succ k ih =>
    intro hk
    have hidx : (w ++ List.replicate n NUL).getD (w.length + k + 1) NUL = NUL :=
      getD_replicate_append w n (k + 1) NUL NUL hk
    rw [← Nat.add_assoc, reverse_notnull_loop, hidx, if_pos rfl]
    exact ih (by omega)

/-- The function `reverse_notnull` reverses the populated prefix of a buffer whose other
cells are NUL. -/
theorem reverse_notnull_eq (w : List Char) (n : Nat) (hw : ∀ c ∈ w, c ≠ NUL) :
    reverse_notnull (w ++ List.replicate n NUL) (w.length + n)
      = w.reverse ++ List.replicate n NUL := by
  unfold reverse_notnull
  have seg := reverse_loop_segment w.length w [] (List.replicate n NUL) rfl (by simp) hw
  simp only [List.nil_append, List.length_nil, Nat.zero_add] at seg
  rcases Nat.eq_zero_or_pos n with rfl | hn
  · simpa using seg
  · have e : w.length + n - 1 = w.length + (n - 1) := by omega
    rw [e, reverse_loop_skip w n (n - 1) (by omega)]
    rcases Nat.eq_zero_or_pos w.length with h0 | hpos
    · have : w = [] := List.length_eq_zero.1 h0
      subst this; rfl
    · obtain ⟨k, hk⟩ : ∃ k, w.length = k + 1 := ⟨w.length - 1, by omega⟩
      have hidx : (w ++ List.replicate n NUL).getD (k + 1) NUL = NUL := by
        have := getD_replicate_append w n 0 NUL NUL hn
        simpa [hk] using this
      rw [hk, reverse_notnull_loop, hidx, if_pos rfl]
      have : k = w.length - 1 := by omega
      rw [this]; exact seg


theorem digit_char_eq (capitalize : Bool) (d : Nat) (hd : d < 16) :
    digit_char (d : Int) capitalize
      = if capitalize then (Nat.digitChar d).toUpper else Nat.digitChar d := by
  cases capitalize <;> interval_cases d <;> rfl

theorem digit_char_ne_NUL (capitalize : Bool) (d : Nat) (hd : d < 16) :
    digit_char (d : Int) capitalize ≠ NUL := by
  cases capitalize <;> interval_cases d <;> decide

theorem toDigitsCore_eq (base : Nat) (hb : 1 < base) : ∀ (fuel n : Nat) (ds : List Char),
    n < fuel → 0 < n →
    Nat.toDigitsCore base fuel n ds = ((Nat.digits base n).map Nat.digitChar).reverse ++ ds := by
  intro fuel
  induction fuel with
  | zero => intro n ds h; omega
  | succ fuel ih =>
    intro n ds hlt hpos
    rw [Nat.toDigitsCore, Nat.digits_def' hb hpos]
    by_cases h0 : n / base = 0
    · simp [h0]
    · have hlt2 : n / base < n := Nat.div_lt_self hpos hb
      simp only [h0, if_false]
      rw [ih (n / base) _ (by omega) (Nat.pos_of_ne_zero h0)]
      simp

theorem toDigits_eq (base : Nat) (hb : 1 < base) (n : Nat) (hpos : 0 < n) :
    Nat.toDigits base n = ((Nat.digits base n).map Nat.digitChar).reverse :=
  by simpa [Nat.toDigits] using toDigitsCore_eq base hb (n + 1) n [] (by omega) hpos

theorem numeral_eq (base : Nat) (hb : 1 < base) (hb16 : base ≤ 16) (capitalize : Bool)
    (n : Nat) (hpos : 0 < n) :
    numeral base capitalize n
      = ((Nat.digits base n).map (fun d : Nat => digit_char (d : Int) capitalize)).reverse := by
  have hmap : (Nat.digits base n).map (fun d : Nat => digit_char (d : Int) capitalize)
      = (Nat.digits base n).map
          (fun d : Nat => if capitalize then (Nat.digitChar d).toUpper else Nat.digitChar d) := by
    apply List.map_congr_left
    intro d hd
    exact digit_char_eq capitalize d (lt_of_lt_of_le (Nat.digits_lt_base hb hd) hb16)
  rw [hmap, numeral, toDigits_eq base hb n hpos]
  cases capitalize <;> simp [List.map_reverse]

theorem numeral_zero (base : Nat) (capitalize : Bool) : numeral base capitalize 0 = ['0'] := by
  have h : Nat.toDigits base 0 = ['0'] := by
    simp [Nat.toDigits, Nat.toDigitsCore, Nat.digitChar]
  cases capitalize
  · simp [numeral, h]
  · simp only [numeral, h, if_true, List.map_cons, List.map_nil]
    rfl

theorem format_integer_digits_eq (len base : Nat) (capitalize : Bool) (hb : 1 < base) :
    ∀ (fuel m : Nat) (pre rest : List Char),
      (Nat.digits base m).length < fuel →
      pre.length + (Nat.digits base m).length < len →
      (Nat.digits base m).length ≤ rest.length →
      format_integer_digits fuel len (base : Int) capitalize (m : Int) pre.length (pre ++ rest)
        = some ⟨pre ++ (Nat.digits base m).map (fun d : Nat => digit_char (d : Int) capitalize)
                  ++ rest.drop (Nat.digits base m).length,
                pre.length + (Nat.digits base m).length, false⟩ := by
  intro fuel
  induction fuel with
  | zero => intro m pre rest h; omega
  | succ fuel ih =>
    intro m pre rest hfuel hroom hrest
    rw [format_integer_digits]
    rcases Nat.eq_zero_or_pos m with rfl | hpos
    · simp
    · have hm : (m : Int) > 0 := by exact_mod_cast hpos
      rw [if_pos hm]
      rw [Nat.digits_def' hb hpos] at hfuel hroom hrest ⊢
      simp only [List.length_cons] at hfuel hroom hrest
      obtain ⟨r, rest1, rfl⟩ : ∃ r rest1, rest = r :: rest1 := by
        cases rest with
        | nil => simp at hrest
        | cons r rest1 => exact ⟨r, rest1, rfl⟩
      simp only [List.length_cons] at hrest
      have hset := set_at_length pre r rest1 (digit_char ((m % base : Nat) : Int) capitalize)
      simp only [← Int.ofNat_tmod, ← Int.ofNat_tdiv, hset]
      rw [if_neg (by omega)]
      have := ih (m / base) (pre ++ [digit_char ((m % base : Nat) : Int) capitalize]) rest1
        (by omega) (by simp; omega) (by omega)
      simp only [List.length_append, List.length_singleton, List.append_assoc,
        List.singleton_append] at this
      rw [this]
      simp [Nat.add_assoc, Nat.add_comm 1]

theorem format_integer_pad_eq (width : Int) : ∀ (rest pre : List Char),
    format_integer_pad rest.length width (pre.length + rest.length) pre.length (pre ++ rest)
      = (pre ++ List.replicate (min (width.toNat - pre.length) rest.length) '0'
            ++ rest.drop (min (width.toNat - pre.length) rest.length),
         pre.length + min (width.toNat - pre.length) rest.length) := by
  intro rest
  induction rest with
  | nil => intro pre; simp [format_integer_pad]
  | cons r rest1 ih =>
    intro pre
    rw [List.length_cons, format_integer_pad]
    by_cases hw : (pre.length : Int) < width
    · rw [if_pos ⟨hw, by omega⟩, set_at_length]
      have := ih (pre ++ ['0'])
      simp only [List.length_append, List.length_singleton, List.append_assoc,
        List.singleton_append] at this
      have e1 : pre.length + (rest1.length + 1) = pre.length + 1 + rest1.length := by omega
      rw [e1, this]
      have e2 : min (width.toNat - pre.length) (rest1.length + 1)
          = min (width.toNat - (pre.length + 1)) rest1.length + 1 := by omega
      rw [e2]
      simp [List.replicate_succ, Nat.add_assoc, Nat.add_comm 1]
    · rw [if_neg (fun h => hw h.1)]
      have e2 : min (width.toNat - pre.length) (rest1.length + 1) = 0 := by omega
      rw [e2]; simp

theorem format_integer_null_eq : ∀ (rest pre : List Char),
    format_integer_null rest.length pre.length (pre ++ rest)
      = pre ++ List.replicate rest.length NUL := by
  intro rest
  induction rest with
  | nil => intro pre; simp [format_integer_null]
  | cons r rest1 ih =>
    intro pre
    rw [List.length_cons, format_integer_null, set_at_length]
    have := ih (pre ++ [NUL])
    simp only [List.length_append, List.length_singleton, List.append_assoc,
      List.singleton_append] at this
    rw [this]
    simp [List.replicate_succ]


theorem digits_length_le (base : Nat) (hb : base = 10 ∨ base = 16) (m : Nat)
    (hm : m < 2147483648) : (Nat.digits base m).length ≤ 10 := by
  rcases Nat.eq_zero_or_pos m with rfl | hpos
  · simp
  · by_contra hlen
    have h11 : 11 ≤ (Nat.digits base m).length := by omega
    rcases hb with rfl | rfl
    · have h1 := Nat.base_pow_length_digits_le 10 m (by norm_num) (by omega)
      have h2 : 10 ^ 11 ≤ 10 ^ (Nat.digits 10 m).length := Nat.pow_le_pow_right (by norm_num) h11
      norm_num at h2
      omega
    · have h1 := Nat.base_pow_length_digits_le 16 m (by norm_num) (by omega)
      have h2 : 16 ^ 11 ≤ 16 ^ (Nat.digits 16 m).length := Nat.pow_le_pow_right (by norm_num) h11
      norm_num at h2
      omega

theorem numeral_length_le (base : Nat) (hb : base = 10 ∨ base = 16) (capitalize : Bool)
    (m : Nat) (hm : m < 2147483648) : (numeral base capitalize m).length ≤ 10 := by
  rcases Nat.eq_zero_or_pos m with rfl | hpos
  · simp [numeral_zero]
  · rw [numeral_eq base (by omega) (by omega) capitalize m hpos]
    simpa using digits_length_le base hb m hm

theorem numeral_ne_NUL (base : Nat) (hb : base = 10 ∨ base = 16) (capitalize : Bool) (m : Nat) :
    ∀ c ∈ numeral base capitalize m, c ≠ NUL := by
  rcases Nat.eq_zero_or_pos m with rfl | hpos
  · simp [numeral_zero]; decide
  · rw [numeral_eq base (by omega) (by omega) capitalize m hpos]
    intro c hc
    simp only [List.mem_reverse, List.mem_map] at hc
    obtain ⟨d, hd, rfl⟩ := hc
    exact digit_char_ne_NUL capitalize d
      (lt_of_lt_of_le (Nat.digits_lt_base (by omega) hd) (by omega))

theorem sign_text_length_le (number base : Int) (flags : Flags) :
    (sign_text number base flags).length ≤ 1 := by
  unfold sign_text; split_ifs <;> simp

theorem sign_text_ne_NUL (number base : Int) (flags : Flags) :
    ∀ c ∈ sign_text number base flags, c ≠ NUL := by
  unfold sign_text; split_ifs <;> simp <;> decide

theorem sign_text_reverse (number base : Int) (flags : Flags) :
    (sign_text number base flags).reverse = sign_text number base flags := by
  unfold sign_text; split_ifs <;> rfl

/-- The digit phase of `format_integer` (the zero case and the digit loop) on a
magnitude below 2^31: the numeral, least significant digit first. -/
theorem format_integer_digit_phase (location : List Char) (hloc : location.length = 20)
    (base : Nat) (hb : base = 10 ∨ base = 16) (capitalize : Bool) (m : Nat)
    (hm : m < 2147483648) :
    format_integer_digits 21 20 (base : Int) capitalize (m : Int)
        (if (m : Int) = 0 then (location.set 0 (characters.getD 0 NUL), 1) else (location, 0)).2
        (if (m : Int) = 0 then (location.set 0 (characters.getD 0 NUL), 1) else (location, 0)).1
      = some ⟨(numeral base capitalize m).reverse
                ++ location.drop (numeral base capitalize m).length,
              (numeral base capitalize m).length, false⟩ := by
  rcases Nat.eq_zero_or_pos m with rfl | hpos
  · obtain ⟨r, rest, rfl⟩ : ∃ r rest, location = r :: rest := by
      cases location with
      | nil => simp at hloc
      | cons r rest => exact ⟨r, rest, rfl⟩
    simp [numeral_zero, format_integer_digits]
    rfl
  · have hne : ¬ ((m : Int) = 0) := by exact_mod_cast (by omega : m ≠ 0)
    have hL := digits_length_le base hb m hm
    have := format_integer_digits_eq 20 base capitalize (by omega) 21 m [] location
      (by omega) (by simp; omega) (by omega)
    simp only [List.nil_append, List.length_nil, Nat.zero_add] at this
    rw [if_neg hne]
    simp only [this, numeral_eq base (by omega) (by omega) capitalize m hpos]
    simp


theorem format_integer_sign_eq (number : Int) (base : Int) (specifier : Specifier)
    (pre : List Char) (r : Char) (rest : List Char) :
    format_integer_sign (decide (number < 0)) base specifier pre.length (pre ++ r :: rest)
      = (pre ++ sign_text number base specifier.flags
           ++ (r :: rest).drop (sign_text number base specifier.flags).length,
         pre.length + (sign_text number base specifier.flags).length) := by
  unfold format_integer_sign sign_text
  by_cases hneg : number < 0
  · by_cases hb : base = 10
    · simp [hneg, hb, set_at_length]
    · simp [hneg, hb]
  · have h0 : 0 ≤ number := by omega
    by_cases hb : base = 10 ∧ specifier.flags = Flags.FLAGS_FORCE_SIGN
    · simp [hneg, h0, hb, set_at_length]
    · simp only [hneg, h0, hb, decide_False, false_and, if_false, and_false, true_and]
      simp

theorem format_integer_zero_pad_eq (specifier : Specifier) (pre rest : List Char) :
    format_integer_zero_pad specifier (pre.length + rest.length) pre.length (pre ++ rest)
      = (pre ++ List.replicate (pad_count specifier (pre.length + rest.length) pre.length) '0'
            ++ rest.drop (pad_count specifier (pre.length + rest.length) pre.length),
         pre.length + pad_count specifier (pre.length + rest.length) pre.length) := by
  unfold format_integer_zero_pad pad_count
  by_cases hf : specifier.flags = Flags.FLAGS_LEFT_PAD
  · by_cases hw : specifier.width > (pre.length : Int)
    · rw [if_pos ⟨hf, hw⟩, if_pos hf]
      have e : pre.length + rest.length - pre.length = rest.length := by omega
      rw [e, format_integer_pad_eq]
      have e2 : min (specifier.width.toNat - pre.length) rest.length
          = min specifier.width.toNat (pre.length + rest.length) - pre.length := by omega
      rw [e2]
    · rw [if_neg (fun h => hw h.2), if_pos hf]
      have e2 : min specifier.width.toNat (pre.length + rest.length) - pre.length = 0 := by omega
      rw [e2]; simp
  · rw [if_neg (fun h => hf h.1), if_neg hf]; simp

/-- The steps of `format_integer` after the digit loop: sign, zero padding, NUL
fill and reversal, on a buffer of 20 cells that holds `pre` so far. -/
theorem format_integer_tail_eq (number : Int) (base : Int) (specifier : Specifier)
    (pre rest : List Char) (hlen : pre.length + rest.length = 20) (hroom : pre.length ≤ 18)
    (hpre : ∀ c ∈ pre, c ≠ NUL) :
    reverse_notnull
        (format_integer_null
          (20 - (format_integer_zero_pad specifier 20
                  (format_integer_sign (decide (number < 0)) base specifier pre.length
                    (pre ++ rest)).2
                  (format_integer_sign (decide (number < 0)) base specifier pre.length
                    (pre ++ rest)).1).2)
          (format_integer_zero_pad specifier 20
              (format_integer_sign (decide (number < 0)) base specifier pre.length
                (pre ++ rest)).2
              (format_integer_sign (decide (number < 0)) base specifier pre.length
                (pre ++ rest)).1).2
          (format_integer_zero_pad specifier 20
              (format_integer_sign (decide (number < 0)) base specifier pre.length
                (pre ++ rest)).2
              (format_integer_sign (decide (number < 0)) base specifier pre.length
                (pre ++ rest)).1).1) 20
      = List.replicate
            (pad_count specifier 20 (pre.length + (sign_text number base specifier.flags).length))
            '0'
          ++ sign_text number base specifier.flags ++ pre.reverse
          ++ List.replicate
              (20 - (pad_count specifier 20
                        (pre.length + (sign_text number base specifier.flags).length)
                      + (sign_text number base specifier.flags).length + pre.length)) NUL := by
  obtain ⟨r, rest1, rfl⟩ : ∃ r rest1, rest = r :: rest1 := by
    cases rest with
    | nil => simp at hlen; omega
    | cons r rest1 => exact ⟨r, rest1, rfl⟩
  have hS := sign_text_length_le number base specifier.flags
  rw [format_integer_sign_eq]
  simp only []
  generalize hsg : sign_text number base specifier.flags = sg at hS ⊢
  have hsgN : ∀ c ∈ sg, c ≠ NUL := by rw [← hsg]; exact sign_text_ne_NUL _ _ _
  have hsgR : sg.reverse = sg := by rw [← hsg]; exact sign_text_reverse _ _ _
  have hl1 : (r :: rest1).length = 20 - pre.length := by omega
  have hl2 : (pre ++ sg).length + ((r :: rest1).drop sg.length).length = 20 := by
    simp only [List.length_append, List.length_drop]; omega
  have hz := format_integer_zero_pad_eq specifier (pre ++ sg) ((r :: rest1).drop sg.length)
  rw [hl2] at hz
  have hx : pre.length + sg.length = (pre ++ sg).length := by simp
  rw [hx, hz]
  simp only []
  generalize hk : pad_count specifier 20 (pre ++ sg).length = k
  have hkle : k ≤ 20 - (pre ++ sg).length := by
    rw [← hk]; unfold pad_count; split_ifs <;> omega
  have hl3 : (pre ++ sg ++ List.replicate k '0').length
      + (((r :: rest1).drop sg.length).drop k).length = 20 := by
    simp only [List.length_append, List.length_drop, List.length_replicate] at hkle ⊢; omega
  have hn := format_integer_null_eq (((r :: rest1).drop sg.length).drop k)
    (pre ++ sg ++ List.replicate k '0')
  have hx2 : (pre ++ sg).length + k = (pre ++ sg ++ List.replicate k '0').length := by
    simp only [List.length_append, List.length_replicate]
  have hx3 : 20 - (pre ++ sg ++ List.replicate k '0').length
      = (((r :: rest1).drop sg.length).drop k).length := by omega
  rw [hx2, hx3, hn]
  have hrev := reverse_notnull_eq (pre ++ sg ++ List.replicate k '0')
    (((r :: rest1).drop sg.length).drop k).length (by
      intro c hc
      simp only [List.mem_append, List.mem_replicate] at hc
      rcases hc with (h | h) | h
      · exact hpre c h
      · exact hsgN c h
      · rw [h.2]; decide)
  rw [hl3] at hrev
  rw [hrev]
  simp only [List.reverse_append, List.reverse_replicate, hsgR, List.append_assoc]
  have hx4 : (((r :: rest1).drop sg.length).drop k).length = 20 - (k + sg.length + pre.length) := by
    simp only [List.length_append, List.length_drop, List.length_replicate] at hl3 ⊢; omega
  rw [hx4]

theorem format_integer_eq (location : List Char) (hloc : location.length = 20)
    (number : Int) (hlo : -2147483648 < number) (hhi : number < 2147483648)
    (base : Nat) (hb : base = 10 ∨ base = 16) (capitalize : Bool) (specifier : Specifier) :
    format_integer location 20 number base capitalize specifier
      = some ⟨token_text number base capitalize specifier 20
                ++ List.replicate (20 - (token_text number base capitalize specifier 20).length) NUL,
              false⟩ := by
  have hmag : (if decide (number < 0) = true then wrap32 (number * -1) else number)
      = ((number.natAbs : Nat) : Int) := by
    by_cases hneg : number < 0
    · simp only [hneg, decide_True, if_true, wrap32]; omega
    · simp only [hneg, decide_False]
      rw [if_neg (by simp)]; omega
  have hm : number.natAbs < 2147483648 := by omega
  have hphase := format_integer_digit_phase location hloc base hb capitalize number.natAbs hm
  have hL := numeral_length_le base hb capitalize number.natAbs hm
  have hS := sign_text_length_le number base specifier.flags
  unfold format_integer
  simp only [hmag, hphase]
  rw [if_neg (by simp)]
  have hx : (numeral base capitalize number.natAbs).length
      = (numeral base capitalize number.natAbs).reverse.length := by simp
  have ht := format_integer_tail_eq number base specifier
    (numeral base capitalize number.natAbs).reverse
    (location.drop (numeral base capitalize number.natAbs).length)
    (by simp only [List.length_reverse, List.length_drop]; omega)
    (by simp only [List.length_reverse]; omega)
    (by
      intro c hc
      exact numeral_ne_NUL base hb capitalize number.natAbs c (List.mem_reverse.1 hc))
  simp only [List.length_reverse, List.reverse_reverse] at ht
  rw [ht]
  unfold token_text
  simp only [List.length_append, List.length_replicate]
  simp only [Nat.add_comm (numeral base capitalize number.natAbs).length, Nat.add_assoc]


/-- The digit loop of `format_integer` does not run out of the fuel it is given. -/
theorem format_integer_digits_isSome (len : Nat) (base : Int) (capitalize : Bool) :
    ∀ (fuel : Nat) (number : Int) (x : Nat) (location : List Char),
      len < fuel + x → 0 < fuel →
      (format_integer_digits fuel len base capitalize number x location).isSome = true := by
  intro fuel
  induction fuel with
  | zero => intro number x location _ h; omega
  | succ fuel ih =>
    intro number x location hlt _
    rw [format_integer_digits]
    by_cases hn : number > 0
    · rw [if_pos hn]
      by_cases hx : x + 1 ≥ len
      · simp only [hx, if_true, Option.isSome_some]
      · simp only [hx, if_false]
        exact ih _ _ _ (by omega) (by omega)
    · simp only [hn, if_false, Option.isSome_some]

/-- The function `format_integer` returns on every input. -/
theorem format_integer_returns (location : List Char) (len : Nat) (number : Int) (base : Int)
    (capitalize : Bool) (specifier : Specifier) :
    (format_integer location len number base capitalize specifier).isSome = true := by
  unfold format_integer
  simp only []
  generalize hz : (if (if decide (number < 0) = true then wrap32 (number * -1) else number) = 0
      then (location.set 0 (characters.getD 0 NUL), 1) else (location, 0)) = zero
  have h := format_integer_digits_isSome len base capitalize (len + 1)
    (if decide (number < 0) = true then wrap32 (number * -1) else number) zero.2 zero.1
    (by omega) (by omega)
  cases hd : format_integer_digits (len + 1) len base capitalize
      (if decide (number < 0) = true then wrap32 (number * -1) else number) zero.2 zero.1 with
  | none => rw [hd] at h; exact absurd h (by simp)
  | some digits =>
    simp only []
    split_ifs <;> rfl

/-! ## Lemmas on tokens, decoding and single directives -/

theorem cstring_append_NUL (t : List Char) (n : Nat) (ht : ∀ c ∈ t, c ≠ NUL) (hn : 0 < n) :
    cstring (t ++ List.replicate n NUL) = some t := by
  induction t with
  | nil =>
    obtain ⟨k, rfl⟩ : ∃ k, n = k + 1 := ⟨n - 1, by omega⟩
    simp [List.replicate_succ, cstring]
  | cons c t ih =>
    have hc : c ≠ NUL := ht c (by simp)
    have h := ih (fun x hx => ht x (by simp [hx]))
    show cstring (c :: (t ++ List.replicate n NUL)) = some (c :: t)
    rw [cstring, if_neg hc, h]
    rfl

theorem cstring_ne_NUL : ∀ (l t : List Char), cstring l = some t → ∀ c ∈ t, c ≠ NUL := by
  intro l
  induction l with
  | nil => intro t h; simp [cstring] at h
  | cons a l ih =>
    intro t h
    by_cases ha : a = NUL
    · simp [cstring, ha] at h; subst h; simp
    · simp only [cstring, if_neg ha] at h
      cases hl : cstring l with
      | none => simp [hl] at h
      | some t1 =>
        simp [hl] at h; subst h
        intro c hc
        rcases List.mem_cons.1 hc with rfl | hc
        · exact ha
        · exact ih t1 hl c hc

theorem c_str_eq_self (t : List Char) (ht : ∀ c ∈ t, c ≠ NUL) : c_str t = t := by
  unfold c_str
  rw [List.takeWhile_eq_self_iff]
  intro c hc
  simpa using ht c hc

theorem token_text_ne_NUL (number : Int) (base : Nat) (hb : base = 10 ∨ base = 16)
    (capitalize : Bool) (specifier : Specifier) (len : Nat) :
    ∀ c ∈ token_text number base capitalize specifier len, c ≠ NUL := by
  intro c hc
  unfold token_text at hc
  simp only [List.mem_append, List.mem_replicate] at hc
  rcases hc with (h | h) | h
  · rw [h.2]; decide
  · exact sign_text_ne_NUL _ _ _ c h
  · exact numeral_ne_NUL base hb capitalize _ c h

/-- The token `format_integer` leaves for a number above -2^31, when it fits the
buffer with a terminator. -/
theorem format_integer_token (location : List Char) (hloc : location.length = 20)
    (number : Int) (hlo : -2147483648 < number) (hhi : number < 2147483648)
    (base : Nat) (hb : base = 10 ∨ base = 16) (capitalize : Bool) (specifier : Specifier)
    (hfit : (token_text number base capitalize specifier 20).length < 20) :
    token (format_integer location 20 number base capitalize specifier)
      = some (token_text number base capitalize specifier 20) := by
  rw [format_integer_eq location hloc number hlo hhi base hb capitalize specifier]
  simp only [token, Option.some_bind]
  exact cstring_append_NUL _ _ (token_text_ne_NUL number base hb capitalize specifier 20)
    (by omega)

/-- A format that is one integer directive `%d`, `%i`, `%x`, `%X` or `%p` with
neither flag nor width: `printk` prints the token of `format_integer` and returns. -/
theorem printk_integer_directive (type : Char)
    (hty : type = 'd' ∨ type = 'i' ∨ type = 'x' ∨ type = 'X' ∨ type = 'p')
    (number : Int) (text : List Char) (k : Nat)
    (htok : token (format_integer (List.replicate 20 NUL) 20 number
        (if type = 'd' ∨ type = 'i' then 10 else 16)
        (if type = 'd' ∨ type = 'i' then false else decide (type = 'X'))
        ⟨0, 0, Flags.FLAGS_NONE, type⟩) = some text) :
    printk (k + 2) ['%', type] [Arg.int number]
      = some (Outcome.returned [Call.print text] []) := by
  cases hf : format_integer (List.replicate 20 NUL) 20 number
        (if type = 'd' ∨ type = 'i' then 10 else 16)
        (if type = 'd' ∨ type = 'i' then false else decide (type = 'X'))
        ⟨0, 0, Flags.FLAGS_NONE, type⟩ with
  | none => rw [hf] at htok; exact absurd htok (by simp [token])
  | some f =>
    rw [hf] at htok
    have htok2 : cstring f.location = some text := htok
    have hc := c_str_eq_self text (cstring_ne_NUL _ _ htok2)
    have hstr : strlen ['%', type] = 2 := by
      rcases hty with rfl | rfl | rfl | rfl | rfl <;> rfl
    have hparse : parse_specifier ['%', type] 0 2 ⟨0, 0, Flags.FLAGS_NONE, NUL⟩
        = (1, ⟨0, 0, Flags.FLAGS_NONE, type⟩) := by
      rcases hty with rfl | rfl | rfl | rfl | rfl <;> rfl
    have hne : type ≠ NUL ∧ type ≠ '%' := by
      rcases hty with rfl | rfl | rfl | rfl | rfl <;> decide
    have hsw : printk_switch ⟨0, 0, Flags.FLAGS_NONE, type⟩
          ⟨1, [Arg.int number], List.replicate 20 NUL, ToPrint.indeterminate, []⟩
        = some (Except.ok ⟨1, [], f.location, ToPrint.format_buffer, []⟩) := by
      unfold printk_switch
      simp only [hne.2, if_false, hty, if_true, va_arg_int, FORMAT_BUFFER_SIZE, hf]
    have hdir : printk_directive ⟨0, 0, Flags.FLAGS_NONE, type⟩
          ⟨1, [Arg.int number], List.replicate 20 NUL, ToPrint.indeterminate, []⟩
        = some (Except.ok ⟨1, [], f.location, ToPrint.format_buffer, [Call.print text]⟩) := by
      unfold printk_directive
      rw [hsw]
      simp only [toprint_string, htok2, print_string, hc, true_or, if_true, List.nil_append]
    have hstep1 : printk_step ['%', type] 2 (printk_start [Arg.int number])
        = some (Step.loop ⟨2, [], f.location, ToPrint.format_buffer, [Call.print text]⟩) := by
      unfold printk_step printk_start
      have hat : format_at ['%', type] 0 = some '%' := rfl
      have hat1 : format_at ['%', type] 1 = some type := rfl
      have hp : ('%' : Char) ≠ NUL := by decide
      simp only [hat, if_neg hp, if_true, Int.toNat_zero, hparse, FORMAT_BUFFER_SIZE, zero_add,
        hdir, printk_advance, hat1, hne.1, ne_eq, not_false_eq_true]
      rfl
    have hstep2 : printk_step ['%', type] 2
          ⟨2, [], f.location, ToPrint.format_buffer, [Call.print text]⟩
        = some (Step.returned ⟨2, [], f.location, ToPrint.format_buffer, [Call.print text]⟩) := by
      unfold printk_step
      have hat : format_at ['%', type] 2 = some NUL := rfl
      simp only [hat, if_true]
    unfold printk
    rw [hstr, printk_loop, hstep1]
    simp only []
    rw [printk_loop, hstep2]


theorem numeral_base10 (capitalize : Bool) (m : Nat) :
    numeral 10 capitalize m = Nat.toDigits 10 m := by
  cases capitalize
  · simp [numeral]
  · rcases Nat.eq_zero_or_pos m with rfl | hpos
    · rfl
    · simp only [numeral, if_true]
      rw [toDigits_eq 10 (by norm_num) m hpos, ← List.map_reverse, List.map_map]
      apply List.map_congr_left
      intro d hd
      have hlt : d < 10 := Nat.digits_lt_base (by norm_num) (List.mem_reverse.1 hd)
      interval_cases d <;> rfl

theorem decode_digits_snoc (base : Nat) (value : Char → Option Nat) :
    ∀ (l : List Char) (c : Char) (acc : Nat),
      decode_digits base value (l ++ [c]) acc
        = (decode_digits base value l acc).bind (fun a => (value c).map (fun d => a * base + d)) := by
  intro l
  induction l with
  | nil =>
    intro c acc
    simp only [List.nil_append, decode_digits]
    cases value c <;> rfl
  | cons a l ih =>
    intro c acc
    simp only [List.cons_append, decode_digits]
    cases value a with
    | none => rfl
    | some d => exact ih c _

theorem decode_digits_reverse (base : Nat) (value : Char → Option Nat) (digit : Nat → Char)
    (ds : List Nat) (hv : ∀ d ∈ ds, value (digit d) = some d) :
    decode_digits base value (ds.map digit).reverse 0 = some (Nat.ofDigits base ds) := by
  induction ds with
  | nil => rfl
  | cons d ds ih =>
    rw [List.map_cons, List.reverse_cons, decode_digits_snoc,
      ih (fun x hx => hv x (by simp [hx])), hv d (by simp)]
    simp [Nat.ofDigits_cons, Nat.mul_comm, Nat.add_comm]

theorem decimal_value_digit_char (capitalize : Bool) (d : Nat) (hd : d < 10) :
    decimal_value (digit_char (d : Int) capitalize) = some d := by
  cases capitalize <;> interval_cases d <;> rfl

theorem hex_value_digit_char (capitalize : Bool) (d : Nat) (hd : d < 16) :
    hex_value (digit_char (d : Int) capitalize) = some d := by
  cases capitalize <;> interval_cases d <;> rfl

theorem isDigit_digit_char (capitalize : Bool) (d : Nat) (hd : d < 10) :
    (digit_char (d : Int) capitalize).isDigit = true := by
  cases capitalize <;> interval_cases d <;> rfl

theorem numeral_ne_nil (base : Nat) (hb : 1 < base) (hb16 : base ≤ 16) (capitalize : Bool)
    (m : Nat) : numeral base capitalize m ≠ [] := by
  rcases Nat.eq_zero_or_pos m with rfl | hpos
  · simp [numeral_zero]
  · rw [numeral_eq base hb hb16 capitalize m hpos]
    simp [Nat.digits_ne_nil_iff_ne_zero]
    omega

theorem decode_decimal_numeral (capitalize : Bool) (m : Nat) :
    decode_decimal (numeral 10 capitalize m) = some m := by
  unfold decode_decimal
  rw [if_neg (numeral_ne_nil 10 (by norm_num) (by norm_num) capitalize m)]
  rcases Nat.eq_zero_or_pos m with rfl | hpos
  · rw [numeral_zero]; rfl
  · rw [numeral_eq 10 (by norm_num) (by norm_num) capitalize m hpos,
      decode_digits_reverse 10 decimal_value _ _ (fun d hd =>
        decimal_value_digit_char capitalize d (Nat.digits_lt_base (by norm_num) hd)),
      Nat.ofDigits_digits]

theorem decode_hex_numeral (capitalize : Bool) (m : Nat) :
    decode_hex (numeral 16 capitalize m) = some m := by
  unfold decode_hex
  rw [if_neg (numeral_ne_nil 16 (by norm_num) (by norm_num) capitalize m)]
  rcases Nat.eq_zero_or_pos m with rfl | hpos
  · rw [numeral_zero]; rfl
  · rw [numeral_eq 16 (by norm_num) (by norm_num) capitalize m hpos,
      decode_digits_reverse 16 hex_value _ _ (fun d hd =>
        hex_value_digit_char capitalize d (Nat.digits_lt_base (by norm_num) hd)),
      Nat.ofDigits_digits]

theorem isDigit_numeral (capitalize : Bool) (m : Nat) :
    ∀ c ∈ numeral 10 capitalize m, c.isDigit = true := by
  rcases Nat.eq_zero_or_pos m with rfl | hpos
  · rw [numeral_zero]; intro c hc; simp at hc; subst hc; rfl
  · rw [numeral_eq 10 (by norm_num) (by norm_num) capitalize m hpos]
    intro c hc
    simp only [List.mem_reverse, List.mem_map] at hc
    obtain ⟨d, hd, rfl⟩ := hc
    exact isDigit_digit_char capitalize d (Nat.digits_lt_base (by norm_num) hd)

/-- Without the zero-pad flag the text is the sign and the numeral. -/
theorem token_text_no_pad (number : Int) (base : Nat) (capitalize : Bool)
    (specifier : Specifier) (len : Nat) (hf : specifier.flags ≠ Flags.FLAGS_LEFT_PAD) :
    token_text number base capitalize specifier len
      = sign_text number base specifier.flags ++ numeral base capitalize number.natAbs := by
  simp [token_text, pad_count, hf]

/-- With width 0 the text is the sign and the numeral. -/
theorem token_text_width_zero (number : Int) (base : Nat) (capitalize : Bool)
    (specifier : Specifier) (len : Nat) (hw : specifier.width = 0) :
    token_text number base capitalize specifier len
      = sign_text number base specifier.flags ++ numeral base capitalize number.natAbs := by
  simp [token_text, pad_count, hw]


theorem format_integer_token_base10 (location : List Char) (hloc : location.length = 20)
    (number : Int) (hlo : -2147483648 < number) (hhi : number < 2147483648)
    (capitalize : Bool) (specifier : Specifier)
    (hfit : (token_text number 10 capitalize specifier 20).length < 20) :
    token (format_integer location 20 number 10 capitalize specifier)
      = some (token_text number 10 capitalize specifier 20) := by
  have h := format_integer_token location hloc number hlo hhi 10 (Or.inl rfl) capitalize
    specifier hfit
  simpa only [Nat.cast_ofNat] using h

theorem format_integer_token_base16 (location : List Char) (hloc : location.length = 20)
    (number : Int) (hlo : -2147483648 < number) (hhi : number < 2147483648)
    (capitalize : Bool) (specifier : Specifier)
    (hfit : (token_text number 16 capitalize specifier 20).length < 20) :
    token (format_integer location 20 number 16 capitalize specifier)
      = some (token_text number 16 capitalize specifier 20) := by
  have h := format_integer_token location hloc number hlo hhi 16 (Or.inr rfl) capitalize
    specifier hfit
  simpa only [Nat.cast_ofNat] using h

theorem sign_text_base16 (number : Int) (flags : Flags) :
    sign_text number ((16 : Nat) : Int) flags = [] := by
  simp [sign_text]


/-- With a non-zero width smaller than the token, `print_string` makes no call. -/
theorem print_string_long_token (string : List Char) (min_chars : Int) (justify : Int)
    (h0 : min_chars ≠ 0) (hlong : min_chars < (strlen string : Int)) :
    print_string string min_chars justify = [] := by
  unfold print_string
  simp only []
  rw [if_neg (by omega), if_neg (by omega), if_neg (by omega)]

/-- The token of a negative number in base 10 under the zero-pad flag, for a width
up to 19 that leaves room for padding: the zeros, then the sign, then the numeral. -/
theorem zero_pad_negative_token (v : Int) (hlo : -2147483648 < v) (hneg : v < 0)
    (W : Int) (precision : Int) (type : Char) (capitalize : Bool)
    (location : List Char) (hloc : location.length = 20)
    (hW : W ≤ 19) (hroom : ((Nat.toDigits 10 v.natAbs).length : Int) + 1 < W) :
    token (format_integer location 20 v 10 capitalize ⟨W, precision, Flags.FLAGS_LEFT_PAD, type⟩)
      = some (List.replicate (W.toNat - (1 + (Nat.toDigits 10 v.natAbs).length)) '0'
                ++ '-' :: Nat.toDigits 10 v.natAbs) := by
  have hs : sign_text v ((10 : Nat) : Int) Flags.FLAGS_LEFT_PAD = ['-'] := by
    simp [sign_text, hneg]
  have htt : token_text v 10 capitalize ⟨W, precision, Flags.FLAGS_LEFT_PAD, type⟩ 20
      = List.replicate (W.toNat - (1 + (Nat.toDigits 10 v.natAbs).length)) '0'
          ++ '-' :: Nat.toDigits 10 v.natAbs := by
    unfold token_text pad_count
    simp only [hs, numeral_base10, if_true, List.length_singleton, List.append_assoc,
      List.singleton_append]
    congr 2
    omega
  have := format_integer_token_base10 location hloc v hlo (by omega) capitalize
    ⟨W, precision, Flags.FLAGS_LEFT_PAD, type⟩ (by
      rw [htt]
      simp only [List.length_append, List.length_replicate, List.length_cons]
      omega)
  rw [htt] at this
  exact this

/-! ## The claims -/

/-- C1: decimal round trip.  For every n with 0 <= n <= 2^31-1, the token that
`format_integer` produces in base 10 with no flag and width 0 consists only of
decimal digits and decodes as a base-10 number to n, and it is the text that
`printk("%d", n)` writes. -/
theorem decimal_round_trip (n : Int) (h0 : 0 ≤ n) (h1 : n ≤ 2147483647)
    (location : List Char) (hloc : location.length = FORMAT_BUFFER_SIZE)
    (capitalize : Bool) (precision : Int) (type : Char) :
    ∃ text : List Char,
      token (format_integer location FORMAT_BUFFER_SIZE n 10 capitalize
          ⟨0, precision, Flags.FLAGS_NONE, type⟩) = some text
      ∧ (∀ c ∈ text, c.isDigit = true)
      ∧ (decode_decimal text).map Int.ofNat = some n
      ∧ printk 2 ['%', 'd'] [Arg.int n] = some (Outcome.returned [Call.print text] [])
      ∧ written [Call.print text] = text := by
  have key : ∀ (loc : List Char), loc.length = 20 → ∀ (cap : Bool) (spec : Specifier),
      spec.width = 0 → spec.flags = Flags.FLAGS_NONE →
      token (format_integer loc 20 n 10 cap spec) = some (Nat.toDigits 10 n.natAbs) := by
    intro loc hl cap spec hw hfl
    have htt : token_text n 10 cap spec 20 = Nat.toDigits 10 n.natAbs := by
      rw [token_text_width_zero n 10 cap spec 20 hw, numeral_base10]
      have : sign_text n ((10 : Nat) : Int) spec.flags = [] := by
        simp [sign_text, hfl]; omega
      rw [this]; rfl
    have hlen := numeral_length_le 10 (Or.inl rfl) cap n.natAbs (by omega)
    rw [numeral_base10] at hlen
    have := format_integer_token_base10 loc hl n (by omega) (by omega) cap spec
      (by rw [htt]; omega)
    rw [htt] at this
    exact this
  refine ⟨Nat.toDigits 10 n.natAbs, key location hloc capitalize _ rfl rfl, ?_, ?_, ?_, ?_⟩
  · rw [← numeral_base10 false]; exact isDigit_numeral false _
  · rw [← numeral_base10 false, decode_decimal_numeral]
    simp only [Option.map_some', Int.ofNat_eq_coe, Option.some.injEq]
    omega
  · exact printk_integer_directive 'd' (Or.inl rfl) n _ 0
      (key _ (by simp) _ _ rfl rfl)
  · simp [written, Call.text]

/-- The decimal round trip at n = 10, the first line `main` prints. -/
theorem decimal_round_trip_witness :
    (0 : Int) ≤ 10 ∧ (10 : Int) ≤ 2147483647 ∧
    ∃ text : List Char,
      token (format_integer (List.replicate 20 NUL) FORMAT_BUFFER_SIZE 10 10 false
          ⟨0, 0, Flags.FLAGS_NONE, 'd'⟩) = some text
      ∧ (∀ c ∈ text, c.isDigit = true)
      ∧ (decode_decimal text).map Int.ofNat = some 10
      ∧ printk 2 ['%', 'd'] [Arg.int 10] = some (Outcome.returned [Call.print text] [])
      ∧ written [Call.print text] = text :=
  ⟨by decide, by decide,
    decimal_round_trip 10 (by decide) (by decide) (List.replicate 20 NUL) rfl false 0 'd'⟩


theorem format_at_append (pre suf : List Char) :
    format_at (pre ++ suf) (pre.length : Int) = some (deref suf) := by
  unfold format_at
  rw [if_pos ⟨by omega, by simp⟩]
  simp

/-- The loop of `printk` over a suffix of literal characters. -/
theorem printk_loop_literal (len : Nat) (k : Nat) : ∀ (suf pre : List Char) (st : State),
    '%' ∉ suf → NUL ∉ suf → st.current_location = (pre.length : Int) →
    printk_loop (suf.length + 1 + k) (pre ++ suf) len st
      = some (Outcome.returned (st.console ++ suf.map Call.printchar) st.args) := by
  intro suf
  induction suf with
  | nil =>
    intro pre st _ _ hcur
    have hat := format_at_append pre []
    rw [List.append_nil] at hat
    simp only [List.length_nil, Nat.zero_add, Nat.add_comm 1 k, printk_loop, printk_step, hcur,
      hat, deref, if_true, List.map_nil, List.append_nil]
  | cons c suf ih =>
    intro pre st hp hn hcur
    have hcp : c ≠ '%' := fun h => hp (by simp [h])
    have hcn : c ≠ NUL := fun h => hn (by simp [h])
    have hat := format_at_append pre (c :: suf)
    have e : (c :: suf).length + 1 + k = (suf.length + 1 + k) + 1 := by simp; omega
    rw [e, printk_loop]
    simp only [printk_step, hcur, hat, deref, if_neg hcn, if_neg hcp, printk_advance, ne_eq,
      hcn, not_false_eq_true, if_true, if_false]
    have := ih (pre ++ [c])
      { st with current_location := (pre.length : Int) + 1,
                console := st.console ++ [Call.printchar c] }
      (fun h => hp (by simp [h])) (fun h => hn (by simp [h])) (by simp)
    simp only [List.append_assoc, List.singleton_append] at this
    rw [this]
    simp

/-- C3: literal passthrough.  For every format string s that contains no '%'
(s a C string: no NUL inside), `printk(s)` returns after writing exactly the
characters of s, in order and once each, and consumes no argument. -/
theorem literal_passthrough (s : List Char) (args : List Arg) (hp : '%' ∉ s) (hn : NUL ∉ s)
    (k : Nat) :
    printk (s.length + 1 + k) s args
        = some (Outcome.returned (s.map Call.printchar) args)
      ∧ written (s.map Call.printchar) = s := by
  constructor
  · have := printk_loop_literal (strlen s) k s [] (printk_start args) hp hn rfl
    simpa [printk, printk_start] using this
  · unfold written
    induction s with
    | nil => rfl
    | cons c s ih =>
      simp only [List.map_cons, List.flatMap_cons, Call.text, List.singleton_append]
      rw [ih (fun h => hp (by simp [h])) (fun h => hn (by simp [h]))]

/-- Literal passthrough at the format "abc": three `printchar` calls, the two
arguments untouched. -/
theorem literal_passthrough_witness :
    '%' ∉ ['a', 'b', 'c'] ∧ NUL ∉ ['a', 'b', 'c'] ∧
    printk 4 ['a', 'b', 'c'] [Arg.int 7, Arg.str ['x']]
        = some (Outcome.returned
            [Call.printchar 'a', Call.printchar 'b', Call.printchar 'c'] [Arg.int 7, Arg.str ['x']])
      ∧ written (['a', 'b', 'c'].map Call.printchar) = ['a', 'b', 'c'] :=
  ⟨by decide, by decide,
    literal_passthrough ['a', 'b', 'c'] [Arg.int 7, Arg.str ['x']] (by decide) (by decide) 0⟩


/-- C2, counterexample: `printk("%x", -1)` writes "1", the numeral of the
magnitude; decoding it yields 1, which is not -1, nor -1 modulo 2^32. -/
theorem hex_round_trip_negative_counterexample :
    token (format_integer (List.replicate 20 NUL) FORMAT_BUFFER_SIZE (-1) 16 false
        ⟨0, 0, Flags.FLAGS_NONE, 'x'⟩) = some ['1']
      ∧ printk 2 ['%', 'x'] [Arg.int (-1)] = some (Outcome.returned [Call.print ['1']] [])
      ∧ (decode_hex ['1']).map Int.ofNat = some 1
      ∧ (decode_hex ['1']).map Int.ofNat ≠ some (-1)
      ∧ (decode_hex ['1']).map (fun m : Nat => wrap32 m) ≠ some (-1) := by
  decide

/-- C2, amended: for every n with -(2^31-1) <= n <= 2^31-1, the text that
`format_integer` produces in base 16 (either case, no flag, width 0), and that
`printk("%x", n)` writes, decodes as a hexadecimal number to the magnitude of n:
to n itself when n >= 0, to -n when n < 0. -/
theorem hex_round_trip_magnitude (n : Int) (hlo : -2147483647 ≤ n) (hhi : n ≤ 2147483647)
    (location : List Char) (hloc : location.length = FORMAT_BUFFER_SIZE)
    (precision : Int) (type : Char) :
    (∀ capitalize : Bool, ∃ text : List Char,
      token (format_integer location FORMAT_BUFFER_SIZE n 16 capitalize
          ⟨0, precision, Flags.FLAGS_NONE, type⟩) = some text
      ∧ (decode_hex text).map Int.ofNat = some (if n < 0 then -n else n))
    ∧ ∃ text : List Char,
      printk 2 ['%', 'x'] [Arg.int n] = some (Outcome.returned [Call.print text] [])
      ∧ written [Call.print text] = text
      ∧ (decode_hex text).map Int.ofNat = some (if n < 0 then -n else n) := by
  have key : ∀ (loc : List Char), loc.length = 20 → ∀ (cap : Bool) (spec : Specifier),
      spec.width = 0 →
      token (format_integer loc 20 n 16 cap spec) = some (numeral 16 cap n.natAbs) := by
    intro loc hl cap spec hw
    have htt : token_text n 16 cap spec 20 = numeral 16 cap n.natAbs := by
      rw [token_text_width_zero n 16 cap spec 20 hw, sign_text_base16]; rfl
    have hlen := numeral_length_le 16 (Or.inr rfl) cap n.natAbs (by omega)
    have := format_integer_token_base16 loc hl n (by omega) (by omega) cap spec
      (by rw [htt]; omega)
    rw [htt] at this
    exact this
  have hdec : ∀ cap : Bool,
      (decode_hex (numeral 16 cap n.natAbs)).map Int.ofNat = some (if n < 0 then -n else n) := by
    intro cap
    rw [decode_hex_numeral]
    simp only [Option.map_some', Int.ofNat_eq_coe, Option.some.injEq]
    split_ifs <;> omega
  refine ⟨fun cap => ⟨numeral 16 cap n.natAbs, key location hloc cap _ rfl, hdec cap⟩,
    numeral 16 false n.natAbs, ?_, ?_, hdec false⟩
  · exact printk_integer_directive 'x' (Or.inr (Or.inr (Or.inl rfl))) n _ 0
      (key _ (by simp) _ _ rfl)
  · simp [written, Call.text]

/-- The amended hexadecimal round trip at n = -10: the text is "a", read back as 10. -/
theorem hex_round_trip_magnitude_witness :
    (-2147483647 : Int) ≤ -10 ∧ (-10 : Int) ≤ 2147483647 ∧
    ((∀ capitalize : Bool, ∃ text : List Char,
      token (format_integer (List.replicate 20 NUL) FORMAT_BUFFER_SIZE (-10) 16 capitalize
          ⟨0, 0, Flags.FLAGS_NONE, 'x'⟩) = some text
      ∧ (decode_hex text).map Int.ofNat = some (if (-10 : Int) < 0 then - (-10) else -10))
    ∧ ∃ text : List Char,
      printk 2 ['%', 'x'] [Arg.int (-10)] = some (Outcome.returned [Call.print text] [])
      ∧ written [Call.print text] = text
      ∧ (decode_hex text).map Int.ofNat = some (if (-10 : Int) < 0 then - (-10) else -10)) :=
  ⟨by decide, by decide,
    hex_round_trip_magnitude (-10) (by decide) (by decide) (List.replicate 20 NUL) rfl 0 'x'⟩

/-- C4: sign policy in base 10.  For every v with -(2^31-1) <= v <= 2^31-1 and
width 0, `format_integer` in base 10 produces s ++ d, where d is the decimal
numeral of |v| (no leading zeros) and s is "-" when v < 0, "+" when v >= 0 and
the flag is force-sign, and empty otherwise; `printk("foo %d", -57)` writes
"foo -57" and `printk("%+d", 90)` writes "+90". -/
theorem sign_policy_base10 (v : Int) (hlo : -2147483647 ≤ v) (hhi : v ≤ 2147483647)
    (location : List Char) (hloc : location.length = FORMAT_BUFFER_SIZE)
    (capitalize : Bool) (flags : Flags) (precision : Int) (type : Char) :
    token (format_integer location FORMAT_BUFFER_SIZE v 10 capitalize
        ⟨0, precision, flags, type⟩)
      = some ((if v < 0 then ['-'] else if flags = Flags.FLAGS_FORCE_SIGN then ['+'] else [])
                ++ Nat.toDigits 10 v.natAbs)
    ∧ printk 6 "foo %d".toList [Arg.int (-57)]
        = some (Outcome.returned
            [Call.printchar 'f', Call.printchar 'o', Call.printchar 'o', Call.printchar ' ',
              Call.print "-57".toList] [])
    ∧ written [Call.printchar 'f', Call.printchar 'o', Call.printchar 'o', Call.printchar ' ',
        Call.print "-57".toList] = "foo -57".toList
    ∧ printk 2 "%+d".toList [Arg.int 90] = some (Outcome.returned [Call.print "+90".toList] [])
    ∧ written [Call.print "+90".toList] = "+90".toList := by
  refine ⟨?_, by decide, by decide, by decide, by decide⟩
  have hs : sign_text v ((10 : Nat) : Int) flags
      = (if v < 0 then ['-'] else if flags = Flags.FLAGS_FORCE_SIGN then ['+'] else []) := by
    unfold sign_text
    by_cases hneg : v < 0
    · simp [hneg]
    · have h0 : 0 ≤ v := by omega
      simp [hneg, h0]
  have htt : token_text v 10 capitalize ⟨0, precision, flags, type⟩ 20
      = (if v < 0 then ['-'] else if flags = Flags.FLAGS_FORCE_SIGN then ['+'] else [])
          ++ Nat.toDigits 10 v.natAbs := by
    rw [token_text_width_zero v 10 capitalize _ 20 rfl, numeral_base10, ← hs]
  have hlen := numeral_length_le 10 (Or.inl rfl) capitalize v.natAbs (by omega)
  rw [numeral_base10] at hlen
  have := format_integer_token_base10 location hloc v (by omega) (by omega) capitalize
    ⟨0, precision, flags, type⟩ (by
      rw [htt]
      simp only [List.length_append]
      split_ifs <;> simp <;> omega)
  rw [htt] at this
  exact this

/-- The sign policy at v = -57, the second line `main` prints. -/
theorem sign_policy_base10_witness :
    (-2147483647 : Int) ≤ -57 ∧ (-57 : Int) ≤ 2147483647 ∧
    token (format_integer (List.replicate 20 NUL) FORMAT_BUFFER_SIZE (-57) 10 false
        ⟨0, 0, Flags.FLAGS_NONE, 'd'⟩)
      = some ((if (-57 : Int) < 0 then ['-']
                else if Flags.FLAGS_NONE = Flags.FLAGS_FORCE_SIGN then ['+'] else [])
                ++ Nat.toDigits 10 (-57 : Int).natAbs) :=
  ⟨by decide, by decide,
    (sign_policy_base10 (-57) (by decide) (by decide) (List.replicate 20 NUL) rfl false
      Flags.FLAGS_NONE 0 'd').1⟩


/-- C6, the code at the failing input: with a non-zero width smaller than the
token, `print_string` makes no console call at all, for either justification,
so `printk("%2d", 12345)` consumes its argument and writes nothing. -/
theorem print_string_drops_long_token :
    print_string "12345".toList 2 JUSTIFY_RIGHT = []
      ∧ print_string "12345".toList 2 JUSTIFY_LEFT = []
      ∧ printk 2 "%2d".toList [Arg.int 12345] = some (Outcome.returned [] [])
      ∧ written [] = ([] : List Char)
      ∧ printk 2 "%d".toList [Arg.int 12345]
          = some (Outcome.returned [Call.print "12345".toList] []) := by
  decide

/-- C7: zero padding of a non-negative value.  For every v with 0 <= v <= 2^31-1,
base 10 or 16, the zero-pad flag and a width W, with L the length of the
numeral of v in that base, `format_integer` with the 20-character buffer leaves
max(L, min(W, 20)) characters: '0' characters only, then the numeral; the other
cells of the buffer are NUL and no cell beyond the 20 is written.  For
L < W <= 19 the token is exactly W - L zeros followed by the numeral. -/
theorem zero_padding (v : Int) (h0 : 0 ≤ v) (h1 : v ≤ 2147483647)
    (base : Nat) (hb : base = 10 ∨ base = 16) (capitalize : Bool) (W : Int)
    (precision : Int) (type : Char)
    (location : List Char) (hloc : location.length = FORMAT_BUFFER_SIZE) :
    format_integer location FORMAT_BUFFER_SIZE v base capitalize
        ⟨W, precision, Flags.FLAGS_LEFT_PAD, type⟩
      = some ⟨List.replicate
                (max (numeral base capitalize v.toNat).length (min W.toNat 20)
                  - (numeral base capitalize v.toNat).length) '0'
              ++ numeral base capitalize v.toNat
              ++ List.replicate
                  (20 - max (numeral base capitalize v.toNat).length (min W.toNat 20)) NUL,
              false⟩
    ∧ (List.replicate
          (max (numeral base capitalize v.toNat).length (min W.toNat 20)
            - (numeral base capitalize v.toNat).length) '0'
        ++ numeral base capitalize v.toNat).length
        = max (numeral base capitalize v.toNat).length (min W.toNat 20)
    ∧ (List.replicate
          (max (numeral base capitalize v.toNat).length (min W.toNat 20)
            - (numeral base capitalize v.toNat).length) '0'
        ++ numeral base capitalize v.toNat
        ++ List.replicate
            (20 - max (numeral base capitalize v.toNat).length (min W.toNat 20)) NUL).length
        = FORMAT_BUFFER_SIZE
    ∧ (((numeral base capitalize v.toNat).length : Int) < W → W ≤ 19 →
        token (format_integer location FORMAT_BUFFER_SIZE v base capitalize
            ⟨W, precision, Flags.FLAGS_LEFT_PAD, type⟩)
          = some (List.replicate (W.toNat - (numeral base capitalize v.toNat).length) '0'
              ++ numeral base capitalize v.toNat)) := by
  have hL := numeral_length_le base hb capitalize v.toNat (by omega)
  have hnat : v.natAbs = v.toNat := by omega
  have hsign : sign_text v (base : Int) Flags.FLAGS_LEFT_PAD = [] := by
    unfold sign_text
    rw [if_neg (by omega), if_neg (by simp)]
  have htt : token_text v base capitalize ⟨W, precision, Flags.FLAGS_LEFT_PAD, type⟩ 20
      = List.replicate
          (max (numeral base capitalize v.toNat).length (min W.toNat 20)
            - (numeral base capitalize v.toNat).length) '0'
        ++ numeral base capitalize v.toNat := by
    unfold token_text pad_count
    simp only [hsign, hnat, List.length_nil, Nat.zero_add, if_true, List.append_nil]
    congr 2
    omega
  have hlen : (List.replicate
          (max (numeral base capitalize v.toNat).length (min W.toNat 20)
            - (numeral base capitalize v.toNat).length) '0'
        ++ numeral base capitalize v.toNat).length
        = max (numeral base capitalize v.toNat).length (min W.toNat 20) := by
    simp only [List.length_append, List.length_replicate]; omega
  have heq := format_integer_eq location hloc v (by omega) (by omega) base hb capitalize
    ⟨W, precision, Flags.FLAGS_LEFT_PAD, type⟩
  rw [htt, hlen] at heq
  refine ⟨heq, hlen, ?_, ?_⟩
  · rw [List.length_append, hlen, List.length_replicate]
    unfold FORMAT_BUFFER_SIZE; omega
  · intro hLW hW19
    have := format_integer_token location hloc v (by omega) (by omega) base hb capitalize
      ⟨W, precision, Flags.FLAGS_LEFT_PAD, type⟩ (by rw [htt, hlen]; omega)
    rw [htt] at this
    have e : max (numeral base capitalize v.toNat).length (min W.toNat 20)
        - (numeral base capitalize v.toNat).length
        = W.toNat - (numeral base capitalize v.toNat).length := by omega
    rw [e] at this
    exact this

/-- Zero padding at `%08x` with 787234, the line `main` prints: three zeros and
the five hexadecimal digits. -/
theorem zero_padding_witness :
    (0 : Int) ≤ 787234 ∧ (787234 : Int) ≤ 2147483647 ∧ ((16 : Nat) = 10 ∨ (16 : Nat) = 16) ∧
    (List.replicate 20 NUL).length = FORMAT_BUFFER_SIZE ∧
    ((numeral 16 false (787234 : Int).toNat).length : Int) < 8 ∧ (8 : Int) ≤ 19 ∧
    token (format_integer (List.replicate 20 NUL) FORMAT_BUFFER_SIZE 787234 (16 : Nat) false
        ⟨8, 0, Flags.FLAGS_LEFT_PAD, 'x'⟩)
      = some (List.replicate ((8 : Int).toNat - (numeral 16 false (787234 : Int).toNat).length) '0'
          ++ numeral 16 false (787234 : Int).toNat) :=
  ⟨by decide, by decide, by decide, by decide, by decide, by decide,
    (zero_padding 787234 (by decide) (by decide) 16 (by decide) false 8 0 'x'
      (List.replicate 20 NUL) (by decide)).2.2.2 (by decide) (by decide)⟩

/-- C8, the code at the failing input: for -42 in base 10 with the zero-pad flag
and width 5, `format_integer` leaves "00-42": the padding is written after the
sign and so precedes it once the buffer is reversed.  `printk("%05d", -42)`
writes that text. -/
theorem zero_padding_precedes_sign :
    token (format_integer (List.replicate 20 NUL) FORMAT_BUFFER_SIZE (-42) 10 false
        ⟨5, 0, Flags.FLAGS_LEFT_PAD, 'd'⟩) = some "00-42".toList
      ∧ "00-42".toList ≠ "-0042".toList
      ∧ printk 2 "%05d".toList [Arg.int (-42)]
          = some (Outcome.returned [Call.print "00-42".toList] []) := by
  decide

/-- C9, the code at the failing input: after the directive "%%" has printed "%",
`printk` still calls `print_string( toprint, ... )`, so `printk("%d%%", 5)`
writes "5%5"; in `printk("100%%")` the pointer `toprint` has never been set when
that call reads it. -/
theorem escaped_percent_prints_toprint_again :
    printk 3 "%d%%".toList [Arg.int 5]
        = some (Outcome.returned [Call.print ['5'], Call.print ['%'], Call.print ['5']] [])
      ∧ written [Call.print ['5'], Call.print ['%'], Call.print ['5']] = "5%5".toList
      ∧ printk 4 "100%%".toList []
          = some (Outcome.undefined Fault.toprint_indeterminate
              [Call.printchar '1', Call.printchar '0', Call.printchar '0', Call.print ['%']]) := by
  decide


/-- At the trailing '%' of "%d%", after the 5 has been rendered, one iteration of
the loop of `printk` prints the old token again and leaves the cursor on the '%'. -/
theorem printk_step_trailing_percent (console : List Call) :
    printk_step "%d%".toList 3
        ⟨2, [], '5' :: List.replicate 19 NUL, ToPrint.format_buffer, console⟩
      = some (Step.loop
          ⟨2, [], '5' :: List.replicate 19 NUL, ToPrint.format_buffer,
            console ++ [Call.print ['5']]⟩) := by
  rfl

theorem printk_loop_trailing_percent : ∀ (fuel : Nat) (console : List Call),
    printk_loop fuel "%d%".toList 3
        ⟨2, [], '5' :: List.replicate 19 NUL, ToPrint.format_buffer, console⟩ = none := by
  intro fuel
  induction fuel with
  | zero => intro console; rfl
  | succ fuel ih =>
    intro console
    rw [printk_loop, printk_step_trailing_percent]
    exact ih _

/-- C10, the code at the failing input: at the bare trailing '%' of "%d%",
`parse_specifier` reports the truncated directive by returning -1; `printk` adds
that to its cursor, steps forward onto the '%' again, and so never returns:
whatever the number of iterations allowed, the call is still running. -/
theorem trailing_percent_never_returns :
    (parse_specifier "%d%".toList 2 3 ⟨0, 0, Flags.FLAGS_NONE, NUL⟩).1 = -1
      ∧ ∀ fuel : Nat, printk fuel "%d%".toList [Arg.int 5] = none := by
  refine ⟨by decide, ?_⟩
  intro fuel
  cases fuel with
  | zero => rfl
  | succ fuel =>
    have hstep : printk_step "%d%".toList 3 (printk_start [Arg.int 5])
        = some (Step.loop
            ⟨2, [], '5' :: List.replicate 19 NUL, ToPrint.format_buffer, [Call.print ['5']]⟩) := by
      decide
    have hlen : strlen "%d%".toList = 3 := by decide
    unfold printk
    rw [hlen, printk_loop, hstep]
    exact printk_loop_trailing_percent fuel _

/-- C13, counterexample: `printk("%x", 787234)` writes "c0322", which is not the
text "bfee2" of the claim; "bfee2" is the hexadecimal numeral of 786146. -/
theorem hex_example_counterexample :
    printk 2 "%x".toList [Arg.int 787234]
        = some (Outcome.returned [Call.print "c0322".toList] [])
      ∧ written [Call.print "c0322".toList] ≠ "bfee2".toList
      ∧ decode_hex "bfee2".toList = some 786146
      ∧ decode_hex "c0322".toList = some 787234 := by
  decide

/-- C13, amended: `printk("%x", 787234)` writes "c0322", `printk("%X", 787234)`
writes "C0322", and `printk("%08x", 787234)` writes "000c0322". -/
theorem hex_example_787234 :
    printk 2 "%x".toList [Arg.int 787234]
        = some (Outcome.returned [Call.print "c0322".toList] [])
      ∧ written [Call.print "c0322".toList] = "c0322".toList
      ∧ printk 2 "%X".toList [Arg.int 787234]
          = some (Outcome.returned [Call.print "C0322".toList] [])
      ∧ written [Call.print "C0322".toList] = "C0322".toList
      ∧ printk 2 "%08x".toList [Arg.int 787234]
          = some (Outcome.returned [Call.print "000c0322".toList] [])
      ∧ written [Call.print "000c0322".toList] = "000c0322".toList := by
  decide

/-- The buffer `format_integer` leaves for -2^31: the negation wraps to -2^31, the
digit loop writes nothing, and only the sign and the zero padding are rendered. -/
theorem format_integer_min_eq (location : List Char) (hloc : location.length = 20)
    (base : Int) (capitalize : Bool) (specifier : Specifier) :
    format_integer location 20 (-2147483648) base capitalize specifier
      = some ⟨List.replicate
                (pad_count specifier 20
                  (sign_text (-2147483648) base specifier.flags).length) '0'
              ++ sign_text (-2147483648) base specifier.flags
              ++ List.replicate
                  (20 - (pad_count specifier 20
                            (sign_text (-2147483648) base specifier.flags).length
                          + (sign_text (-2147483648) base specifier.flags).length)) NUL,
              false⟩ := by
  have ht := format_integer_tail_eq (-2147483648) base specifier [] location
    (by simpa using hloc) (by simp) (by simp)
  simp only [List.length_nil, Nat.zero_add, List.nil_append, List.reverse_nil, List.append_nil,
    Nat.add_zero] at ht
  have hneg : decide ((-2147483648 : Int) < 0) = true := by decide
  have hw : wrap32 (-2147483648 * -1) = -2147483648 := by decide
  have hne : ¬ ((-2147483648 : Int) = 0) := by decide
  have hnp : ¬ ((-2147483648 : Int) > 0) := by decide
  unfold format_integer
  simp only [hneg, if_true, hw, hne, if_false, format_integer_digits, hnp]
  rw [if_neg (by simp)]
  rw [← hneg, ht]

/-- C20: minimum value.  For v = -2^31, with `number *= -1` taken modulo 2^32 (so
the number stays -2^31), `format_integer` emits no digit: with width 0, whatever
the flag and the capitalize setting, the base-10 token is exactly "-" and the
base-16 token is the empty string; `printk("%d", -2^31)` writes "-". -/
theorem minimum_value_no_digit (location : List Char)
    (hloc : location.length = FORMAT_BUFFER_SIZE) (capitalize : Bool) (flags : Flags)
    (precision : Int) (type : Char) :
    wrap32 (-2147483648 * -1) = -2147483648
      ∧ token (format_integer location FORMAT_BUFFER_SIZE (-2147483648) 10 capitalize
          ⟨0, precision, flags, type⟩) = some ['-']
      ∧ token (format_integer location FORMAT_BUFFER_SIZE (-2147483648) 16 capitalize
          ⟨0, precision, flags, type⟩) = some []
      ∧ printk 2 "%d".toList [Arg.int (-2147483648)]
          = some (Outcome.returned [Call.print ['-']] [])
      ∧ printk 2 "%x".toList [Arg.int (-2147483648)]
          = some (Outcome.returned [Call.print []] []) := by
  refine ⟨by decide, ?_, ?_, by decide, by decide⟩
  · rw [show FORMAT_BUFFER_SIZE = 20 from rfl,
      format_integer_min_eq location hloc 10 capitalize ⟨0, precision, flags, type⟩]
    have hs : sign_text (-2147483648) 10 flags = ['-'] := by simp [sign_text]
    have hp : ∀ n, pad_count ⟨0, precision, flags, type⟩ 20 n = 0 := by
      intro n; simp [pad_count]
    simp only [hs, hp, token, Option.some_bind]
    rfl
  · rw [show FORMAT_BUFFER_SIZE = 20 from rfl,
      format_integer_min_eq location hloc 16 capitalize ⟨0, precision, flags, type⟩]
    have hs : sign_text (-2147483648) 16 flags = [] := by simp [sign_text]
    have hp : ∀ n, pad_count ⟨0, precision, flags, type⟩ 20 n = 0 := by
      intro n; simp [pad_count]
    simp only [hs, hp, token, Option.some_bind]
    rfl

/-- The minimum value on the buffer `printk` starts with, with no flag. -/
theorem minimum_value_no_digit_witness :
    (List.replicate 20 NUL).length = FORMAT_BUFFER_SIZE
      ∧ token (format_integer (List.replicate 20 NUL) FORMAT_BUFFER_SIZE (-2147483648) 10 false
          ⟨0, 0, Flags.FLAGS_NONE, 'd'⟩) = some ['-']
      ∧ token (format_integer (List.replicate 20 NUL) FORMAT_BUFFER_SIZE (-2147483648) 16 false
          ⟨0, 0, Flags.FLAGS_NONE, 'd'⟩) = some [] :=
  ⟨rfl,
    (minimum_value_no_digit (List.replicate 20 NUL) rfl false Flags.FLAGS_NONE 0 'd').2.1,
    (minimum_value_no_digit (List.replicate 20 NUL) rfl false Flags.FLAGS_NONE 0 'd').2.2.1⟩

theorem drop_at_length (pre : List Char) (rest : List Char) (k : Nat) :
    (pre ++ rest).drop (pre.length + k) = rest.drop k := by
  induction pre with
  | nil => simp
  | cons a pre ih =>
    have e : (a :: pre).length + k = (pre.length + k) + 1 := by simp; omega
    rw [e]
    simp

/-- The function `parse_specifier` with its intermediate values spelled out: `k`
is 1 when a flag was read, and the width and the precision are parsed at the
indices that follow. -/
theorem parse_specifier_eq (format : List Char) (start len : Nat) (specifier : Specifier)
    (k : Nat)
    (hk : k = if parse_flag (deref (format.drop (start + 1))) ≠ Flags.FLAGS_NONE then 1 else 0)
    (w : Int × Nat) (hw : w = printk_parse_width (format.drop (start + 1 + k)))
    (p : Int × Nat) (hp : p = printk_parse_precision (format.drop (start + 1 + k + w.2))) :
    parse_specifier format start len specifier
      = if deref (format.drop (start + 1)) = '%' then (1, { specifier with type := '%' })
        else if start + 1 + k ≥ len then
          (-1, { specifier with flags := parse_flag (deref (format.drop (start + 1))) })
        else if start + 1 + k + w.2 ≥ len then
          (-1, ⟨w.1, specifier.precision, parse_flag (deref (format.drop (start + 1))),
                specifier.type⟩)
        else if start + 1 + k + w.2 + p.2 ≥ len then
          (-1, ⟨w.1, p.1, parse_flag (deref (format.drop (start + 1))), specifier.type⟩)
        else
          (((k + w.2 + p.2 + 1 : Nat) : Int),
            ⟨w.1, p.1, parse_flag (deref (format.drop (start + 1))),
              deref (format.drop (start + 1 + k + w.2 + p.2))⟩) := by
  subst hp hw
  unfold parse_specifier
  dsimp only
  by_cases hfl : parse_flag (deref (format.drop (start + 1))) ≠ Flags.FLAGS_NONE
  · rw [if_pos hfl] at hk
    subst hk
    simp only [if_pos hfl]
  · rw [if_neg hfl] at hk
    subst hk
    simp only [if_neg hfl, Nat.add_zero, Nat.zero_add]

/-- C15: single-flag policy.  For every directive whose text after the '%' begins
with two flag characters f1 f2, f1 one of '-', '+', ' ', '#', '0' and f2 one of
'-', '+', ' ', '#', with f2 inside the string (its index below `len`),
`parse_specifier` records the flag of f1 only, yields width 0 and precision 0,
makes f2 the type of the directive although it is a flag character, and
returns 2. -/
theorem single_flag_policy (pre rest : List Char) (f1 f2 : Char) (len : Nat)
    (specifier : Specifier)
    (h1 : f1 ∈ ['-', '+', ' ', '#', '0']) (h2 : f2 ∈ ['-', '+', ' ', '#'])
    (hlen : pre.length + 2 < len) :
    parse_specifier (pre ++ '%' :: f1 :: f2 :: rest) pre.length len specifier
        = (2, ⟨0, 0, parse_flag f1, f2⟩)
      ∧ parse_flag f1 ≠ Flags.FLAGS_NONE
      ∧ parse_flag f2 ≠ Flags.FLAGS_NONE := by
  have hd1 : (pre ++ '%' :: f1 :: f2 :: rest).drop (pre.length + 1) = f1 :: f2 :: rest := by
    rw [drop_at_length pre ('%' :: f1 :: f2 :: rest) 1]; rfl
  have hd2 : (pre ++ '%' :: f1 :: f2 :: rest).drop (pre.length + 1 + 1) = f2 :: rest := by
    rw [Nat.add_assoc, drop_at_length pre ('%' :: f1 :: f2 :: rest) 2]; rfl
  have hf1 : f1 ≠ '%' ∧ parse_flag f1 ≠ Flags.FLAGS_NONE := by
    simp only [List.mem_cons, List.mem_singleton, List.not_mem_nil, or_false] at h1
    rcases h1 with rfl | rfl | rfl | rfl | rfl <;> decide
  have hf2 : parse_flag f2 ≠ Flags.FLAGS_NONE
      ∧ printk_parse_width (f2 :: rest) = (0, 0)
      ∧ printk_parse_precision (f2 :: rest) = (0, 0) := by
    simp only [List.mem_cons, List.mem_singleton, List.not_mem_nil, or_false] at h2
    rcases h2 with rfl | rfl | rfl | rfl <;> exact ⟨by decide, rfl, rfl⟩
  refine ⟨?_, hf1.2, hf2.1⟩
  have hdr1 : deref (f1 :: f2 :: rest) = f1 := rfl
  have hdr2 : deref (f2 :: rest) = f2 := rfl
  rw [parse_specifier_eq (pre ++ '%' :: f1 :: f2 :: rest) pre.length len specifier 1
    (by rw [hd1, hdr1, if_pos hf1.2]) (0, 0) (by rw [hd2, hf2.2.1]) (0, 0)
    (by rw [Nat.add_zero, hd2, hf2.2.2])]
  rw [hd1, hdr1, if_neg hf1.1, if_neg (by omega), if_neg (by omega), if_neg (by omega)]
  simp only [Nat.add_zero, hd2, hdr2]
  rfl

/-- The single-flag policy at the directive "%-+" of the format "%-+5d": the type
is '+', and the width 5 that follows is not read. -/
theorem single_flag_policy_witness :
    '-' ∈ ['-', '+', ' ', '#', '0'] ∧ '+' ∈ ['-', '+', ' ', '#'] ∧
    ([] : List Char).length + 2 < 5 ∧
    parse_specifier "%-+5d".toList 0 5 ⟨0, 0, Flags.FLAGS_NONE, NUL⟩
      = (2, ⟨0, 0, Flags.FLAGS_LEFT_JUSTIFY, '+'⟩) :=
  ⟨by decide, by decide, by decide,
    (single_flag_policy [] ['5', 'd'] '-' '+' 5 ⟨0, 0, Flags.FLAGS_NONE, NUL⟩
      (by decide) (by decide) (by decide)).1⟩

theorem ascii_to_int_digit (c : Char) (h : 48 ≤ c.toNat ∧ c.toNat ≤ 57) :
    ascii_to_int c = ((c.toNat - 48 : Nat) : Int) ∧ decimal_value c = some (c.toNat - 48)
      ∧ c ≠ '.' := by
  obtain ⟨k, hk⟩ : ∃ k, c.toNat = k := ⟨_, rfl⟩
  have hc : c = Char.ofNat k := by rw [← hk, Char.ofNat_toNat]
  rw [hk] at h
  obtain ⟨h1, h2⟩ := h
  subst hc
  interval_cases k <;> exact ⟨by decide, by decide, by decide⟩

theorem decode_digits_ge (base : Nat) (value : Char → Option Nat) :
    ∀ (text : List Char) (acc v : Nat), 1 ≤ base →
      decode_digits base value text acc = some v → acc ≤ v := by
  intro text
  induction text with
  | nil => intro acc v _ h; simp [decode_digits] at h; omega
  | cons c text ih =>
    intro acc v hb h
    rw [decode_digits] at h
    cases hv : value c with
    | none => rw [hv] at h; exact absurd h (by simp)
    | some d =>
      rw [hv] at h
      have := ih (acc * base + d) v hb h
      have h2 : acc ≤ acc * base := Nat.le_mul_of_pos_right acc hb
      omega

theorem digit_run_cons (c : Char) (string : List Char) :
    digit_run (c :: string)
      = if 48 ≤ c.toNat ∧ c.toNat ≤ 57 then c :: digit_run string else [] := by
  unfold digit_run
  rw [List.takeWhile_cons]
  by_cases h : 48 ≤ c.toNat ∧ c.toNat ≤ 57
  · simp [h]
  · simp [h]

theorem decode_digit_run (string : List Char) :
    ∀ acc : Nat, ∃ v, decode_digits 10 decimal_value (digit_run string) acc = some v := by
  induction string with
  | nil => intro acc; exact ⟨acc, rfl⟩
  | cons c string ih =>
    intro acc
    rw [digit_run_cons]
    by_cases h : 48 ≤ c.toNat ∧ c.toNat ≤ 57
    · rw [if_pos h, decode_digits, (ascii_to_int_digit c h).2.1]
      exact ih _
    · rw [if_neg h]; exact ⟨acc, rfl⟩

theorem printk_parse_width_loop_count : ∀ (string : List Char) (width : Int) (n : Nat),
    (printk_parse_width_loop string width n).2 = n + (digit_run string).length := by
  intro string
  induction string with
  | nil => intro width n; rfl
  | cons c string ih =>
    intro width n
    rw [printk_parse_width_loop, digit_run_cons]
    by_cases h : 48 ≤ c.toNat ∧ c.toNat ≤ 57
    · have hdot := (ascii_to_int_digit c h).2.2
      rw [if_pos ⟨h.1, h.2, hdot⟩, if_pos h, ih]
      simp only [List.length_cons]; omega
    · rw [if_neg (fun hh => h ⟨hh.1, hh.2.1⟩), if_neg h]; rfl

theorem printk_parse_width_loop_value : ∀ (string : List Char) (acc : Nat) (n : Nat) (v : Nat),
    decode_digits 10 decimal_value (digit_run string) acc = some v → v ≤ 2147483647 →
    (printk_parse_width_loop string (acc : Int) n).1 = (v : Int) := by
  intro string
  induction string with
  | nil =>
    intro acc n v h _
    simp only [digit_run, List.takeWhile_nil, decode_digits, Option.some.injEq] at h
    rw [printk_parse_width_loop, h]
  | cons c string ih =>
    intro acc n v h hv
    rw [digit_run_cons] at h
    rw [printk_parse_width_loop]
    by_cases hd : 48 ≤ c.toNat ∧ c.toNat ≤ 57
    · obtain ⟨ha, hdv, hdot⟩ := ascii_to_int_digit c hd
      rw [if_pos hd, decode_digits, hdv] at h
      have hge := decode_digits_ge 10 decimal_value _ _ _ (by norm_num) h
      rw [if_pos ⟨hd.1, hd.2, hdot⟩, ha]
      have hw : wrap32 (wrap32 ((acc : Int) * 10) + ((c.toNat - 48 : Nat) : Int))
          = ((acc * 10 + (c.toNat - 48) : Nat) : Int) := by
        unfold wrap32
        push_cast
        omega
      rw [hw]
      exact ih _ _ _ h hv
    · rw [if_neg hd] at h
      simp only [decode_digits, Option.some.injEq] at h
      rw [if_neg (fun hh => hd ⟨hh.1, hh.2.1⟩), h]

/-- C16: width grammar.  `printk_parse_width` returns (0, 0 consumed) when the
cursor is at the end of the string and (-1, 1 consumed) when it is at '*';
otherwise it consumes exactly the longest run of decimal digits at the cursor
and returns the decimal value of that run whenever the value fits in a 32-bit
int; the result is (0, 0) when the first character is not a digit. -/
theorem width_grammar (string : List Char) :
    (deref string = NUL → printk_parse_width string = (0, 0))
      ∧ (deref string = '*' → printk_parse_width string = (-1, 1))
      ∧ (deref string ≠ NUL → deref string ≠ '*' →
          (printk_parse_width string).2 = (digit_run string).length
          ∧ (∃ v : Nat, decode_digits 10 decimal_value (digit_run string) 0 = some v
              ∧ (v ≤ 2147483647 → (printk_parse_width string).1 = (v : Int)))
          ∧ (digit_run string = [] → printk_parse_width string = (0, 0))) := by
  refine ⟨?_, ?_, ?_⟩
  · intro h; unfold printk_parse_width; rw [if_pos h]
  · intro h
    have hn : deref string ≠ NUL := by rw [h]; decide
    unfold printk_parse_width; rw [if_neg hn, if_pos h]
  · intro hn hs
    have hpw : printk_parse_width string = printk_parse_width_loop string 0 0 := by
      unfold printk_parse_width; rw [if_neg hn, if_neg hs]
    obtain ⟨v, hv⟩ := decode_digit_run string 0
    have hcount := printk_parse_width_loop_count string 0 0
    rw [Nat.zero_add] at hcount
    refine ⟨by rw [hpw, hcount], ⟨v, hv, ?_⟩, ?_⟩
    · intro hfit
      rw [hpw]
      exact printk_parse_width_loop_value string 0 0 v hv hfit
    · intro hrun
      rw [hrun] at hv hcount
      simp only [decode_digits, Option.some.injEq] at hv
      have h1 : (printk_parse_width_loop string 0 0).1 = (v : Int) :=
        printk_parse_width_loop_value string 0 0 v (by rw [hrun]; simp [decode_digits, hv])
          (by omega)
      rw [hpw]
      apply Prod.ext
      · rw [h1, ← hv]; rfl
      · rw [hcount]; rfl

/-- The width grammar at the text "10s" that follows the '%' of "%10s": the
run "10" is consumed and its value 10 returned. -/
theorem width_grammar_witness :
    deref "10s".toList ≠ NUL ∧ deref "10s".toList ≠ '*' ∧
    (printk_parse_width "10s".toList).2 = (digit_run "10s".toList).length
      ∧ (digit_run "10s".toList) = "10".toList
      ∧ (∃ v : Nat, decode_digits 10 decimal_value (digit_run "10s".toList) 0 = some v
          ∧ (v ≤ 2147483647 → (printk_parse_width "10s".toList).1 = (v : Int))) :=
  ⟨by decide, by decide,
    ((width_grammar "10s".toList).2.2 (by decide) (by decide)).1, by decide,
    ((width_grammar "10s".toList).2.2 (by decide) (by decide)).2.1⟩

theorem digit_char_hex (d : Nat) (hd : d < 16) :
    digit_char (d : Int) true = hex_upper (digit_char (d : Int) false)
      ∧ digit_char (d : Int) false ∈ "0123456789abcdef".toList
      ∧ (d ≠ 0 → digit_char (d : Int) false ≠ '0') := by
  interval_cases d <;> exact ⟨by decide, by decide, by decide⟩

/-- C17: hex case.  For every v with 0 <= v <= 2^31-1 and width 0, under any
flag, the token `format_integer` produces in base 16 with capitalize set is the
token it produces with capitalize clear after mapping a-f to A-F; the lowercase
token contains only characters of 0-9a-f, so no sign character, and has no
leading zero unless v = 0, where it is "0". -/
theorem hex_case (v : Int) (h0 : 0 ≤ v) (h1 : v ≤ 2147483647)
    (location : List Char) (hloc : location.length = FORMAT_BUFFER_SIZE)
    (flags : Flags) (precision : Int) (type : Char) :
    ∃ lower upper : List Char,
      token (format_integer location FORMAT_BUFFER_SIZE v 16 false
          ⟨0, precision, flags, type⟩) = some lower
      ∧ token (format_integer location FORMAT_BUFFER_SIZE v 16 true
          ⟨0, precision, flags, type⟩) = some upper
      ∧ upper = lower.map hex_upper
      ∧ (∀ c ∈ lower, c ∈ "0123456789abcdef".toList)
      ∧ '-' ∉ lower ∧ '+' ∉ lower
      ∧ (v ≠ 0 → lower.head? ≠ some '0')
      ∧ (v = 0 → lower = ['0']) := by
  have key : ∀ cap : Bool,
      token (format_integer location 20 v 16 cap ⟨0, precision, flags, type⟩)
        = some (numeral 16 cap v.natAbs) := by
    intro cap
    have htt : token_text v 16 cap ⟨0, precision, flags, type⟩ 20 = numeral 16 cap v.natAbs := by
      rw [token_text_width_zero v 16 cap _ 20 rfl, sign_text_base16]; rfl
    have hlen := numeral_length_le 16 (Or.inr rfl) cap v.natAbs (by omega)
    have := format_integer_token_base16 location hloc v (by omega) (by omega) cap
      ⟨0, precision, flags, type⟩ (by rw [htt]; omega)
    rw [htt] at this
    exact this
  have halpha : ∀ c ∈ numeral 16 false v.natAbs, c ∈ "0123456789abcdef".toList := by
    rcases Nat.eq_zero_or_pos v.natAbs with hz | hpos
    · rw [hz, numeral_zero]; intro c hc; simp at hc; subst hc; decide
    · rw [numeral_eq 16 (by norm_num) (by norm_num) false _ hpos]
      intro c hc
      simp only [List.mem_reverse, List.mem_map] at hc
      obtain ⟨d, hd, rfl⟩ := hc
      exact (digit_char_hex d (Nat.digits_lt_base (by norm_num) hd)).2.1
  refine ⟨numeral 16 false v.natAbs, numeral 16 true v.natAbs, key false, key true, ?_, halpha,
    ?_, ?_, ?_, ?_⟩
  · rcases Nat.eq_zero_or_pos v.natAbs with hz | hpos
    · rw [hz, numeral_zero, numeral_zero]; rfl
    · rw [numeral_eq 16 (by norm_num) (by norm_num) true _ hpos,
        numeral_eq 16 (by norm_num) (by norm_num) false _ hpos, ← List.map_reverse,
        ← List.map_reverse, List.map_map]
      apply List.map_congr_left
      intro d hd
      exact (digit_char_hex d
        (Nat.digits_lt_base (by norm_num) (List.mem_reverse.1 hd))).1
  · intro h; exact absurd (halpha _ h) (by decide)
  · intro h; exact absurd (halpha _ h) (by decide)
  · intro hv
    have hpos : 0 < v.natAbs := by omega
    have hne : Nat.digits 16 v.natAbs ≠ [] := by
      rw [Nat.digits_ne_nil_iff_ne_zero]; omega
    have hlast := Nat.getLast_digit_ne_zero 16 (m := v.natAbs) (by omega)
    have hlt : (Nat.digits 16 v.natAbs).getLast hne < 16 :=
      Nat.digits_lt_base (by norm_num) (List.getLast_mem hne)
    rw [numeral_eq 16 (by norm_num) (by norm_num) false _ hpos,
      ← List.dropLast_append_getLast hne]
    simp only [List.map_append, List.map_cons, List.map_nil, List.reverse_append,
      List.reverse_cons, List.reverse_nil, List.nil_append, List.singleton_append,
      List.head?_cons]
    intro h
    simp only [Option.some.injEq] at h
    exact (digit_char_hex _ hlt).2.2 hlast h
  · intro hv
    subst hv
    rfl

/-- The hex case at v = 787234: "c0322" and "C0322". -/
theorem hex_case_witness :
    (0 : Int) ≤ 787234 ∧ (787234 : Int) ≤ 2147483647 ∧
    (List.replicate 20 NUL).length = FORMAT_BUFFER_SIZE ∧
    ∃ lower upper : List Char,
      token (format_integer (List.replicate 20 NUL) FORMAT_BUFFER_SIZE 787234 16 false
          ⟨0, 0, Flags.FLAGS_NONE, 'x'⟩) = some lower
      ∧ token (format_integer (List.replicate 20 NUL) FORMAT_BUFFER_SIZE 787234 16 true
          ⟨0, 0, Flags.FLAGS_NONE, 'x'⟩) = some upper
      ∧ upper = lower.map hex_upper
      ∧ (∀ c ∈ lower, c ∈ "0123456789abcdef".toList)
      ∧ '-' ∉ lower ∧ '+' ∉ lower
      ∧ ((787234 : Int) ≠ 0 → lower.head? ≠ some '0')
      ∧ ((787234 : Int) = 0 → lower = ['0']) :=
  ⟨by decide, by decide, rfl,
    hex_case 787234 (by decide) (by decide) (List.replicate 20 NUL) rfl Flags.FLAGS_NONE 0 'x'⟩

/-- C12, the code at the failing input: in "%.2d" `printk_parse_precision` reads
the precision 2 but does not count the '.', so `parse_specifier` stops one
character short: the type is '2', not 'd', and the count is 2, not 3; the same
in "%5.2d" (type '2', count 3 instead of 4).  `printk("%d%.2d", 1, 7)` then
prints the old token for the unknown type '2', writes the 'd' as a literal and
leaves the argument 7 unconsumed.  Without a precision the directive "%-5d" is
parsed as the claim says. -/
theorem precision_dot_not_counted :
    parse_specifier "%.2d".toList 0 4 ⟨0, 0, Flags.FLAGS_NONE, NUL⟩
        = (2, ⟨0, 2, Flags.FLAGS_NONE, '2'⟩)
      ∧ parse_specifier "%5.2d".toList 0 5 ⟨0, 0, Flags.FLAGS_NONE, NUL⟩
        = (3, ⟨5, 2, Flags.FLAGS_NONE, '2'⟩)
      ∧ printk_parse_precision ".2d".toList = (2, 1)
      ∧ printk 4 "%d%.2d".toList [Arg.int 1, Arg.int 7]
        = some (Outcome.returned [Call.print ['1'], Call.print ['1'], Call.printchar 'd']
            [Arg.int 7])
      ∧ parse_specifier "%-5d".toList 0 4 ⟨0, 0, Flags.FLAGS_NONE, NUL⟩
        = (3, ⟨5, 0, Flags.FLAGS_LEFT_JUSTIFY, 'd'⟩) := by
  decide

/-! ### Cells beyond the buffer are never written -/

theorem reverse_notnull_loop_beyond : ∀ (i j : Nat) (l beyond : List Char), i < l.length →
    reverse_notnull_loop i j (l ++ beyond) = reverse_notnull_loop i j l ++ beyond
      ∧ (reverse_notnull_loop i j l).length = l.length := by
  intro i
  induction i with
  | zero => intro j l beyond _; exact ⟨rfl, rfl⟩
  | succ i ih =>
    intro j l beyond hi
    rw [reverse_notnull_loop, reverse_notnull_loop, List.getD_append l beyond NUL (i + 1) hi]
    by_cases h0 : l.getD (i + 1) NUL = NUL
    · rw [if_pos h0, if_pos h0]; exact ih j l beyond (by omega)
    · rw [if_neg h0, if_neg h0]
      by_cases hlt : i + 1 < j
      · rw [if_pos hlt, if_pos hlt]; exact ⟨rfl, rfl⟩
      · rw [if_neg hlt, if_neg hlt]
        have hj : j < l.length := by omega
        simp only []
        rw [List.getD_append l beyond NUL j hj, List.set_append_left _ _ hi,
          List.set_append_left _ _ (by rw [List.length_set]; exact hj)]
        have := ih (j + 1) ((l.set (i + 1) (l.getD j NUL)).set j (l.getD (i + 1) NUL)) beyond
          (by rw [List.length_set, List.length_set]; omega)
        rw [List.length_set, List.length_set] at this
        exact this

theorem format_integer_null_beyond : ∀ (room x : Nat) (l beyond : List Char),
    x + room ≤ l.length →
    format_integer_null room x (l ++ beyond) = format_integer_null room x l ++ beyond
      ∧ (format_integer_null room x l).length = l.length := by
  intro room
  induction room with
  | zero => intro x l beyond _; exact ⟨rfl, rfl⟩
  | succ room ih =>
    intro x l beyond h
    rw [format_integer_null, format_integer_null, List.set_append_left _ _ (by omega)]
    have := ih (x + 1) (l.set x NUL) beyond (by rw [List.length_set]; omega)
    rw [List.length_set] at this
    exact this

theorem format_integer_pad_beyond (width : Int) (len : Nat) : ∀ (room x : Nat)
    (l beyond : List Char), len ≤ l.length →
    format_integer_pad room width len x (l ++ beyond)
        = ((format_integer_pad room width len x l).1 ++ beyond,
            (format_integer_pad room width len x l).2)
      ∧ (format_integer_pad room width len x l).1.length = l.length
      ∧ (format_integer_pad room width len x l).2 ≤ max x len := by
  intro room
  induction room with
  | zero => intro x l beyond _; exact ⟨rfl, rfl, by simp [format_integer_pad]⟩
  | succ room ih =>
    intro x l beyond h
    rw [format_integer_pad, format_integer_pad]
    by_cases hc : (x : Int) < width ∧ x < len
    · rw [if_pos hc, if_pos hc, List.set_append_left _ _ (by omega)]
      have := ih (x + 1) (l.set x '0') beyond (by rw [List.length_set]; exact h)
      rw [List.length_set] at this
      exact ⟨this.1, this.2.1, by have := this.2.2; omega⟩
    · rw [if_neg hc, if_neg hc]; exact ⟨rfl, rfl, by simp⟩

theorem format_integer_digits_beyond (len : Nat) (base : Int) (capitalize : Bool) :
    ∀ (fuel : Nat) (number : Int) (x : Nat) (l beyond : List Char) (d : Digits),
      x < l.length → len ≤ l.length →
      format_integer_digits fuel len base capitalize number x l = some d →
      format_integer_digits fuel len base capitalize number x (l ++ beyond)
          = some ⟨d.location ++ beyond, d.x, d.not_big_enough⟩
        ∧ d.location.length = l.length
        ∧ (d.not_big_enough = false → d.x = x ∨ d.x < len) := by
  intro fuel
  induction fuel with
  | zero => intro number x l beyond d _ _ h; simp [format_integer_digits] at h
  | succ fuel ih =>
    intro number x l beyond d hx hlen h
    rw [format_integer_digits] at h ⊢
    by_cases hn : number > 0
    · rw [if_pos hn] at h ⊢
      simp only [] at h ⊢
      rw [List.set_append_left _ _ hx]
      by_cases hfull : x + 1 ≥ len
      · rw [if_pos hfull] at h ⊢
        simp only [Option.some.injEq] at h
        subst h
        exact ⟨rfl, by simp, by simp⟩
      · rw [if_neg hfull] at h ⊢
        obtain ⟨h1, h2, h3⟩ := ih _ (x + 1) _ beyond d (by rw [List.length_set]; omega)
          (by rw [List.length_set]; exact hlen) h
        refine ⟨h1, by rw [h2, List.length_set], ?_⟩
        intro hb
        rcases h3 hb with h3 | h3
        · right; omega
        · right; exact h3
    · rw [if_neg hn] at h ⊢
      simp only [Option.some.injEq] at h
      subst h
      exact ⟨rfl, rfl, fun _ => Or.inl rfl⟩

/-- The function `format_integer`, given a buffer of 20 cells, leaves every cell
beyond them as it was: it never writes at an index of 20 or more. -/
theorem format_integer_beyond (location beyond : List Char) (hloc : location.length = 20)
    (number : Int) (base : Int) (capitalize : Bool) (specifier : Specifier) (f : Formatted)
    (hf : format_integer location 20 number base capitalize specifier = some f) :
    format_integer (location ++ beyond) 20 number base capitalize specifier
        = some ⟨f.location ++ beyond, f.not_big_enough⟩
      ∧ f.location.length = 20 := by
  unfold format_integer at hf ⊢
  simp only [] at hf ⊢
  generalize hnum : (if decide (number < 0) = true then wrap32 (number * -1) else number) = m
    at hf ⊢
  have hzero : (if m = 0 then ((location ++ beyond).set 0 (characters.getD 0 NUL), 1)
        else (location ++ beyond, 0))
      = ((if m = 0 then (location.set 0 (characters.getD 0 NUL), 1) else (location, 0)).1
          ++ beyond,
         (if m = 0 then (location.set 0 (characters.getD 0 NUL), 1) else (location, 0)).2) := by
    by_cases hm : m = 0
    · rw [if_pos hm, if_pos hm, List.set_append_left _ _ (by omega)]
    · rw [if_neg hm, if_neg hm]
  rw [hzero]
  generalize hz : (if m = 0 then (location.set 0 (characters.getD 0 NUL), 1)
    else (location, 0)) = zero at hf ⊢
  have hzl : zero.1.length = 20 ∧ zero.2 ≤ 1 := by
    rw [← hz]; split_ifs
    · exact ⟨by simp [hloc], by simp⟩
    · exact ⟨hloc, by simp⟩
  cases hd : format_integer_digits (20 + 1) 20 base capitalize m zero.2 zero.1 with
  | none => rw [hd] at hf; exact absurd hf (by simp)
  | some d =>
    rw [hd] at hf
    obtain ⟨h1, h2, h3⟩ := format_integer_digits_beyond 20 base capitalize 21 m zero.2 zero.1
      beyond d (by omega) (by omega) hd
    simp only [] at hf ⊢
    rw [h1]
    simp only []
    by_cases hnb : d.not_big_enough = true
    · rw [if_pos hnb] at hf ⊢
      simp only [Option.some.injEq] at hf
      subst hf
      exact ⟨rfl, by rw [h2]; exact hzl.1⟩
    · rw [if_neg hnb] at hf ⊢
      have hdx : d.x < 20 := by
        rcases h3 (by simpa using hnb) with h | h <;> omega
      have hdl : d.location.length = 20 := by rw [h2]; exact hzl.1
      -- the sign step
      have hsign : format_integer_sign (decide (number < 0)) base specifier d.x
            (d.location ++ beyond)
          = ((format_integer_sign (decide (number < 0)) base specifier d.x d.location).1
              ++ beyond,
             (format_integer_sign (decide (number < 0)) base specifier d.x d.location).2)
          ∧ (format_integer_sign (decide (number < 0)) base specifier d.x d.location).1.length
              = 20
          ∧ (format_integer_sign (decide (number < 0)) base specifier d.x d.location).2
              ≤ 20 := by
        unfold format_integer_sign
        split_ifs
        · exact ⟨by rw [List.set_append_left _ _ (by omega)], by simp [hdl], by simp; omega⟩
        · exact ⟨by rw [List.set_append_left _ _ (by omega)], by simp [hdl], by simp; omega⟩
        · exact ⟨rfl, hdl, by simp; omega⟩
      generalize hs : format_integer_sign (decide (number < 0)) base specifier d.x d.location
        = sign at hf hsign ⊢
      rw [hsign.1]
      simp only []
      have hpad : format_integer_zero_pad specifier 20 sign.2 (sign.1 ++ beyond)
          = ((format_integer_zero_pad specifier 20 sign.2 sign.1).1 ++ beyond,
             (format_integer_zero_pad specifier 20 sign.2 sign.1).2)
          ∧ (format_integer_zero_pad specifier 20 sign.2 sign.1).1.length = 20
          ∧ (format_integer_zero_pad specifier 20 sign.2 sign.1).2 ≤ 20 := by
        unfold format_integer_zero_pad
        split_ifs
        · have := format_integer_pad_beyond specifier.width 20 (20 - sign.2) sign.2 sign.1
            beyond (by omega)
          exact ⟨this.1, by rw [this.2.1]; exact hsign.2.1, by have := this.2.2; omega⟩
        · exact ⟨rfl, hsign.2.1, hsign.2.2⟩
      generalize hp : format_integer_zero_pad specifier 20 sign.2 sign.1 = pad at hf hpad ⊢
      rw [hpad.1]
      simp only []
      have hnull := format_integer_null_beyond (20 - pad.2) pad.2 pad.1 beyond
        (by have := hpad.2.2; omega)
      rw [hnull.1]
      have hrev := reverse_notnull_loop_beyond 19 0 (format_integer_null (20 - pad.2) pad.2 pad.1)
        beyond (by rw [hnull.2, hpad.2.1]; omega)
      simp only [Option.some.injEq] at hf
      subst hf
      refine ⟨?_, ?_⟩
      · show some (Formatted.mk (reverse_notnull_loop 19 0 _) false) = _
        rw [hrev.1]; rfl
      · show (reverse_notnull_loop 19 0 _).length = 20
        rw [hrev.2, hnull.2, hpad.2.1]

/-- The buffer `format_integer` leaves for any 32-bit number in base 10 or 16: a
text without NUL, then NULs; the text has at most 11 characters unless the
zero-pad flag widens it, and then at most the width and at most 20. -/
theorem format_integer_text (location : List Char) (hloc : location.length = 20)
    (v : Int) (hlo : -2147483648 ≤ v) (hhi : v ≤ 2147483647)
    (base : Nat) (hb : base = 10 ∨ base = 16) (capitalize : Bool) (specifier : Specifier) :
    ∃ text : List Char,
      format_integer location 20 v base capitalize specifier
          = some ⟨text ++ List.replicate (20 - text.length) NUL, false⟩
        ∧ (∀ c ∈ text, c ≠ NUL)
        ∧ text.length ≤ 20
        ∧ (specifier.flags ≠ Flags.FLAGS_LEFT_PAD → text.length ≤ 11)
        ∧ (specifier.flags = Flags.FLAGS_LEFT_PAD →
            text.length ≤ max 11 (min specifier.width.toNat 20)) := by
  have hS := sign_text_length_le v base specifier.flags
  rcases eq_or_lt_of_le hlo with hmin | hgt
  · subst hmin
    refine ⟨List.replicate
        (pad_count specifier 20 (sign_text (-2147483648) base specifier.flags).length) '0'
        ++ sign_text (-2147483648) base specifier.flags, ?_, ?_, ?_, ?_, ?_⟩
    · have := format_integer_min_eq location hloc base capitalize specifier
      simp only [List.length_append, List.length_replicate]
      exact this
    · intro c hc
      simp only [List.mem_append, List.mem_replicate] at hc
      rcases hc with h | h
      · rw [h.2]; decide
      · exact sign_text_ne_NUL _ _ _ c h
    · simp only [List.length_append, List.length_replicate]
      unfold pad_count; split_ifs <;> omega
    · intro hf
      simp only [List.length_append, List.length_replicate]
      unfold pad_count; rw [if_neg hf]; omega
    · intro hf
      simp only [List.length_append, List.length_replicate]
      unfold pad_count; rw [if_pos hf]; omega
  · have hL := numeral_length_le base hb capitalize v.natAbs (by omega)
    refine ⟨token_text v base capitalize specifier 20,
      format_integer_eq location hloc v hgt (by omega) base hb capitalize specifier,
      token_text_ne_NUL v base hb capitalize specifier 20, ?_, ?_, ?_⟩
    · unfold token_text pad_count
      simp only [List.length_append, List.length_replicate]
      split_ifs <;> omega
    · intro hf
      unfold token_text pad_count
      simp only [List.length_append, List.length_replicate]
      rw [if_neg hf]; omega
    · intro hf
      unfold token_text pad_count
      simp only [List.length_append, List.length_replicate]
      rw [if_pos hf]; omega

/-- C19: buffer sufficiency.  For every 32-bit signed value, base 10 or 16,
capitalize setting, flag and width, `format_integer` called with the
20-character buffer returns without taking the "buffer not big enough" branch
and leaves every cell beyond the 20 as it was (no write at an index >= 20);
when the flag is not zero-pad, or the width is at most 19, the buffer holds a
token of at most max(11, width) and at most 19 characters followed by a NUL. -/
theorem buffer_sufficiency (v : Int) (hlo : -2147483648 ≤ v) (hhi : v ≤ 2147483647)
    (base : Nat) (hb : base = 10 ∨ base = 16) (capitalize : Bool) (specifier : Specifier)
    (location : List Char) (hloc : location.length = FORMAT_BUFFER_SIZE)
    (beyond : List Char) :
    ∃ f : Formatted,
      format_integer location FORMAT_BUFFER_SIZE v base capitalize specifier = some f
        ∧ f.not_big_enough = false
        ∧ f.location.length = FORMAT_BUFFER_SIZE
        ∧ format_integer (location ++ beyond) FORMAT_BUFFER_SIZE v base capitalize specifier
            = some ⟨f.location ++ beyond, false⟩
        ∧ (specifier.flags ≠ Flags.FLAGS_LEFT_PAD ∨ specifier.width ≤ 19 →
            ∃ text : List Char,
              cstring f.location = some text
                ∧ (text.length : Int) ≤ max 11 specifier.width
                ∧ text.length ≤ 19
                ∧ f.location.getD text.length NUL = NUL) := by
  obtain ⟨text, hf, hn, h20, hnp, hp⟩ :=
    format_integer_text location hloc v hlo hhi base hb capitalize specifier
  have hb := format_integer_beyond location beyond hloc v base capitalize specifier _ hf
  refine ⟨_, hf, rfl, hb.2, hb.1, ?_⟩
  intro hcase
  have h19 : text.length ≤ 19 ∧ (text.length : Int) ≤ max 11 specifier.width := by
    by_cases hfl : specifier.flags = Flags.FLAGS_LEFT_PAD
    · have := hp hfl
      rcases hcase with h | h
      · exact absurd hfl h
      · omega
    · have := hnp hfl
      omega
  refine ⟨text, cstring_append_NUL text _ hn (by omega), h19.2, h19.1, ?_⟩
  have := getD_replicate_append text (20 - text.length) 0 NUL NUL (by omega)
  simpa using this

/-- Buffer sufficiency at -2147483647 in base 10 with the zero-pad flag and
width 19: the token fills 19 cells and the NUL remains. -/
theorem buffer_sufficiency_witness :
    (-2147483648 : Int) ≤ -2147483647 ∧ (-2147483647 : Int) ≤ 2147483647 ∧
    ((10 : Nat) = 10 ∨ (10 : Nat) = 16) ∧
    (List.replicate 20 NUL).length = FORMAT_BUFFER_SIZE ∧
    ((⟨19, 0, Flags.FLAGS_LEFT_PAD, 'd'⟩ : Specifier).flags ≠ Flags.FLAGS_LEFT_PAD
      ∨ (⟨19, 0, Flags.FLAGS_LEFT_PAD, 'd'⟩ : Specifier).width ≤ 19) ∧
    ∃ f : Formatted,
      format_integer (List.replicate 20 NUL) FORMAT_BUFFER_SIZE (-2147483647) (10 : Nat) false
          ⟨19, 0, Flags.FLAGS_LEFT_PAD, 'd'⟩ = some f
        ∧ f.not_big_enough = false
        ∧ f.location.length = FORMAT_BUFFER_SIZE
        ∧ format_integer (List.replicate 20 NUL ++ ['x', 'y']) FORMAT_BUFFER_SIZE (-2147483647)
            (10 : Nat) false ⟨19, 0, Flags.FLAGS_LEFT_PAD, 'd'⟩
            = some ⟨f.location ++ ['x', 'y'], false⟩
        ∧ ∃ text : List Char,
            cstring f.location = some text
              ∧ (text.length : Int) ≤ max 11 19
              ∧ text.length ≤ 19
              ∧ f.location.getD text.length NUL = NUL := by
  obtain ⟨f, h1, h2, h3, h4, h5⟩ :=
    buffer_sufficiency (-2147483647) (by decide) (by decide) 10 (Or.inl rfl) false
      ⟨19, 0, Flags.FLAGS_LEFT_PAD, 'd'⟩ (List.replicate 20 NUL) rfl ['x', 'y']
  exact ⟨by decide, by decide, Or.inl rfl, rfl, Or.inr (by decide), f, h1, h2, h3, h4,
    h5 (Or.inr (by decide))⟩

theorem printk_switch_args (specifier : Specifier) (st next : State)
    (h : printk_switch specifier st = some (Except.ok next)) :
    next.current_location = st.current_location
      ∧ (if consumes_argument specifier.type = true then ∃ a, st.args = a :: next.args
          else next.args = st.args) := by
  unfold printk_switch at h
  simp only [] at h
  by_cases h1 : specifier.type = '%'
  · rw [if_pos h1] at h
    simp only [Option.some.injEq, Except.ok.injEq] at h
    subst h
    have : consumes_argument specifier.type = false := by rw [h1]; decide
    simp [this]
  · rw [if_neg h1] at h
    by_cases h2 : specifier.type = 'd' ∨ specifier.type = 'i' ∨ specifier.type = 'x'
        ∨ specifier.type = 'X' ∨ specifier.type = 'p'
    · rw [if_pos h2] at h
      have hc : consumes_argument specifier.type = true := by
        rcases h2 with h | h | h | h | h <;> rw [h] <;> decide
      rw [if_pos hc]
      cases hargs : st.args with
      | nil => rw [hargs] at h; simp [va_arg_int] at h
      | cons a rest =>
        rw [hargs] at h
        cases a with
        | str s => simp [va_arg_int] at h
        | int v =>
          simp only [va_arg_int] at h
          cases hf : format_integer st.format_buffer FORMAT_BUFFER_SIZE v
              (if specifier.type = 'd' ∨ specifier.type = 'i' then 10 else 16)
              (if specifier.type = 'd' ∨ specifier.type = 'i' then false
                else decide (specifier.type = 'X')) specifier with
          | none => rw [hf] at h; simp at h
          | some f =>
            rw [hf] at h
            simp only [Option.some.injEq, Except.ok.injEq] at h
            subst h
            exact ⟨rfl, Arg.int v, rfl⟩
    · rw [if_neg h2] at h
      by_cases h3 : specifier.type = 's'
      · rw [if_pos h3] at h
        have hc : consumes_argument specifier.type = true := by rw [h3]; decide
        rw [if_pos hc]
        cases hargs : st.args with
        | nil => rw [hargs] at h; simp [va_arg_str] at h
        | cons a rest =>
          rw [hargs] at h
          cases a with
          | int v => simp [va_arg_str] at h
          | str s =>
            simp only [va_arg_str, Option.some.injEq, Except.ok.injEq] at h
            subst h
            exact ⟨rfl, Arg.str s, rfl⟩
      · rw [if_neg h3] at h
        by_cases h4 : specifier.type = 'c'
        · rw [if_pos h4] at h
          have hc : consumes_argument specifier.type = true := by rw [h4]; decide
          rw [if_pos hc]
          cases hargs : st.args with
          | nil => rw [hargs] at h; simp [va_arg_int] at h
          | cons a rest =>
            rw [hargs] at h
            cases a with
            | str s => simp [va_arg_int] at h
            | int v =>
              simp only [va_arg_int, Option.some.injEq, Except.ok.injEq] at h
              subst h
              exact ⟨rfl, Arg.int v, rfl⟩
        · rw [if_neg h4] at h
          simp only [Option.some.injEq, Except.ok.injEq] at h
          subst h
          have hc : consumes_argument specifier.type = false := by
            unfold consumes_argument
            simp only [decide_eq_false_iff_not]
            intro hh
            rcases hh with hh | hh | hh | hh | hh | hh | hh
            · exact h2 (Or.inl hh)
            · exact h2 (Or.inr (Or.inl hh))
            · exact h2 (Or.inr (Or.inr (Or.inl hh)))
            · exact h2 (Or.inr (Or.inr (Or.inr (Or.inl hh))))
            · exact h2 (Or.inr (Or.inr (Or.inr (Or.inr hh))))
            · exact h3 hh
            · exact h4 hh
          simp [hc]

theorem printk_directive_args (specifier : Specifier) (st next : State)
    (h : printk_directive specifier st = some (Except.ok next)) :
    next.current_location = st.current_location
      ∧ (if consumes_argument specifier.type = true then ∃ a, st.args = a :: next.args
          else next.args = st.args) := by
  unfold printk_directive at h
  cases hsw : printk_switch specifier st with
  | none => rw [hsw] at h; simp at h
  | some r =>
    rw [hsw] at h
    cases r with
    | error e => simp at h
    | ok st1 =>
      simp only [] at h
      have := printk_switch_args specifier st st1 hsw
      cases hts : toprint_string st1 with
      | error e => rw [hts] at h; simp at h
      | ok string =>
        rw [hts] at h
        simp only [Option.some.injEq, Except.ok.injEq] at h
        subst h
        exact this

theorem printk_advance_loop (format : List Char) (st next : State)
    (h : printk_advance format st = Step.loop next) :
    next.args = st.args
      ∧ ∃ c, format_at format st.current_location = some c
          ∧ next.current_location
              = if c ≠ NUL then st.current_location + 1 else st.current_location := by
  unfold printk_advance at h
  cases hat : format_at format st.current_location with
  | none => rw [hat] at h; simp at h
  | some c =>
    rw [hat] at h
    simp only [] at h
    by_cases hc : c ≠ NUL
    · rw [if_pos hc] at h
      simp only [Step.loop.injEq] at h
      subst h
      exact ⟨rfl, c, rfl, by rw [if_pos hc]⟩
    · rw [if_neg hc] at h
      simp only [Step.loop.injEq] at h
      subst h
      exact ⟨rfl, c, rfl, by rw [if_neg hc]⟩

/-- One iteration of the loop of `printk` that goes on: the character under the
cursor is not NUL; for a literal the arguments stay and the cursor advances
from its place, for a '%' the arguments and the cursor follow the parsed
specifier. -/
theorem printk_step_loop (format : List Char) (len : Nat) (st next : State)
    (h : printk_step format len st = some (Step.loop next)) :
    ∃ c, format_at format st.current_location = some c ∧ c ≠ NUL
      ∧ ((c ≠ '%' ∧ next.args = st.args
            ∧ next.current_location = st.current_location + 1)
          ∨ (c = '%'
            ∧ (if consumes_argument
                    (parse_specifier format st.current_location.toNat len
                      ⟨0, 0, Flags.FLAGS_NONE, NUL⟩).2.type = true
                then ∃ a, st.args = a :: next.args else next.args = st.args)
            ∧ ∃ c2, format_at format
                    (st.current_location
                      + (parse_specifier format st.current_location.toNat len
                          ⟨0, 0, Flags.FLAGS_NONE, NUL⟩).1) = some c2
                ∧ next.current_location
                    = if c2 ≠ NUL then
                        st.current_location
                          + (parse_specifier format st.current_location.toNat len
                              ⟨0, 0, Flags.FLAGS_NONE, NUL⟩).1 + 1
                      else
                        st.current_location
                          + (parse_specifier format st.current_location.toNat len
                              ⟨0, 0, Flags.FLAGS_NONE, NUL⟩).1)) := by
  unfold printk_step at h
  cases hat : format_at format st.current_location with
  | none => rw [hat] at h; simp at h
  | some c =>
    rw [hat] at h
    simp only [] at h
    by_cases hc : c = NUL
    · rw [if_pos hc] at h; simp at h
    · rw [if_neg hc] at h
      refine ⟨c, rfl, hc, ?_⟩
      by_cases hp : c = '%'
      · rw [if_pos hp] at h
        right
        refine ⟨hp, ?_⟩
        generalize hparse : parse_specifier format st.current_location.toNat len
          ⟨0, 0, Flags.FLAGS_NONE, NUL⟩ = parsed at h ⊢
        cases hd : printk_directive parsed.2
            { st with current_location := st.current_location + parsed.1 } with
        | none => rw [hd] at h; simp at h
        | some r =>
          rw [hd] at h
          cases r with
          | error e => simp at h
          | ok st2 =>
            simp only [Option.some.injEq] at h
            have hda := printk_directive_args parsed.2 _ st2 hd
            have hadv := printk_advance_loop format st2 next h
            simp only [] at hda
            rw [hadv.1]
            refine ⟨hda.2, ?_⟩
            rw [hda.1] at hadv
            exact hadv.2
      · rw [if_neg hp] at h
        left
        simp only [Option.some.injEq] at h
        have hadv := printk_advance_loop format _ next h
        obtain ⟨ha, c2, hc2, hn⟩ := hadv
        simp only [] at hc2 hn
        rw [hat] at hc2
        simp only [Option.some.injEq] at hc2
        subst hc2
        rw [if_pos hc] at hn
        exact ⟨hp, ha, hn⟩

theorem printk_step_returned (format : List Char) (len : Nat) (st final : State)
    (h : printk_step format len st = some (Step.returned final)) :
    final = st ∧ format_at format st.current_location = some NUL := by
  unfold printk_step at h
  cases hat : format_at format st.current_location with
  | none => rw [hat] at h; simp at h
  | some c =>
    rw [hat] at h
    simp only [] at h
    by_cases hc : c = NUL
    · rw [if_pos hc] at h
      simp only [Option.some.injEq, Step.returned.injEq] at h
      exact ⟨h.symm, by rw [hc]⟩
    · rw [if_neg hc] at h
      by_cases hp : c = '%'
      · rw [if_pos hp] at h
        cases hd : printk_directive
            (parse_specifier format st.current_location.toNat len
              ⟨0, 0, Flags.FLAGS_NONE, NUL⟩).2
            { st with current_location := st.current_location
                + (parse_specifier format st.current_location.toNat len
                    ⟨0, 0, Flags.FLAGS_NONE, NUL⟩).1 } with
        | none => rw [hd] at h; simp at h
        | some r =>
          rw [hd] at h
          cases r with
          | error e => simp at h
          | ok st2 =>
            simp only [Option.some.injEq] at h
            unfold printk_advance at h
            cases hat2 : format_at format st2.current_location with
            | none => rw [hat2] at h; simp at h
            | some c2 =>
              rw [hat2] at h
              simp only [] at h
              split_ifs at h
      · rw [if_neg hp] at h
        simp only [Option.some.injEq] at h
        unfold printk_advance at h
        dsimp only at h
        rw [hat] at h
        dsimp only at h
        split_ifs at h

/-- The arguments a run of the loop of `printk` that returns has consumed: a
prefix of the argument list, one argument for every directive met whose type
calls `va_arg`. -/
theorem printk_loop_args (format : List Char) (len : Nat) : ∀ (fuel : Nat) (st : State)
    (console : List Call) (rest : List Arg),
    printk_loop fuel format len st = some (Outcome.returned console rest) →
    ∃ consumed : List Arg, st.args = consumed ++ rest
      ∧ consumed.length
          = ((printk_directives fuel format len st).filter
              (fun s => consumes_argument s.type)).length := by
  intro fuel
  induction fuel with
  | zero => intro st console rest h; simp [printk_loop] at h
  | succ fuel ih =>
    intro st console rest h
    rw [printk_loop] at h
    rw [printk_directives]
    cases hstep : printk_step format len st with
    | none => rw [hstep] at h; simp at h
    | some r =>
      rw [hstep] at h
      cases r with
      | undefined why st2 => simp at h
      | returned st2 =>
        simp only [Option.some.injEq, Outcome.returned.injEq] at h
        obtain ⟨hst, hat⟩ := printk_step_returned format len st st2 hstep
        subst hst
        refine ⟨[], by simp [h.2], ?_⟩
        have hne : ¬ (format_at format st2.current_location = some '%') := by
          rw [hat]; decide
        simp [hne]
      | loop next =>
        simp only [] at h ⊢
        obtain ⟨consumed, hargs, hcount⟩ := ih next console rest h
        obtain ⟨c, hat, _, hcase⟩ := printk_step_loop format len st next hstep
        rcases hcase with ⟨hp, hsame, _⟩ | ⟨hp, hcons, _⟩
        · have hne : ¬ (format_at format st.current_location = some '%') := by
            rw [hat]; intro hh; exact hp (Option.some.inj hh)
          refine ⟨consumed, by rw [← hsame, hargs], ?_⟩
          rw [if_neg hne, List.nil_append]
          exact hcount
        · have hpos : format_at format st.current_location = some '%' := by rw [hat, hp]
          rw [if_pos hpos]
          by_cases hc : consumes_argument
              (parse_specifier format st.current_location.toNat len
                ⟨0, 0, Flags.FLAGS_NONE, NUL⟩).2.type = true
          · rw [if_pos hc] at hcons
            obtain ⟨a, ha⟩ := hcons
            refine ⟨a :: consumed, by rw [ha, hargs]; rfl, ?_⟩
            simp only [List.singleton_append, List.filter_cons, hc, if_true, List.length_cons]
            rw [hcount]
          · rw [if_neg hc] at hcons
            refine ⟨consumed, by rw [← hcons, hargs], ?_⟩
            simp only [List.singleton_append, List.filter_cons, hc, if_false]
            exact hcount

/-- C11: argument cursor.  In every run of `printk` that returns, the arguments
consumed are a prefix of the argument list, taken left to right; their number
is the number of the directives met whose type is one of d, i, x, X, p, s, c.
At each directive the `switch` takes exactly the next argument when the type
is one of these seven, and none for '%' or any other type.  The line of `main`
with three directives consumes its three arguments. -/
theorem argument_cursor (fuel : Nat) (format : List Char) (args : List Arg)
    (console : List Call) (rest : List Arg)
    (hrun : printk fuel format args = some (Outcome.returned console rest)) :
    (∃ consumed : List Arg, args = consumed ++ rest
      ∧ consumed.length
          = ((printk_directives fuel format (strlen format) (printk_start args)).filter
              (fun s => consumes_argument s.type)).length)
    ∧ (∀ (specifier : Specifier) (st next : State),
        printk_switch specifier st = some (Except.ok next) →
        if consumes_argument specifier.type = true then ∃ a, st.args = a :: next.args
        else next.args = st.args)
    ∧ consumes_argument '%' = false
    ∧ (∀ type : Char, consumes_argument type = true ↔
        type ∈ ['d', 'i', 'x', 'X', 'p', 's', 'c'])
    ∧ printk 13 "foo %d %d %s".toList
          [Arg.int 55, Arg.int 234, Arg.str "what what in de butt".toList]
        = some (Outcome.returned
            [Call.printchar 'f', Call.printchar 'o', Call.printchar 'o', Call.printchar ' ',
              Call.print "55".toList, Call.printchar ' ', Call.print "234".toList,
              Call.printchar ' ', Call.print "what what in de butt".toList] []) := by
  refine ⟨?_, ?_, by decide, ?_, by decide⟩
  · exact printk_loop_args format (strlen format) fuel (printk_start args) console rest hrun
  · intro specifier st next h
    exact (printk_switch_args specifier st next h).2
  · intro type
    simp [consumes_argument]

/-- The argument cursor at "%d%q%%%s" with three arguments: the directives of
type d and s take the first two arguments in order, those of type q and % take
none, and the third argument is left. -/
theorem argument_cursor_witness :
    printk 5 "%d%q%%%s".toList [Arg.int 55, Arg.str ['w'], Arg.int 3]
        = some (Outcome.returned
            [Call.print "55".toList, Call.print "55".toList, Call.print ['%'],
              Call.print "55".toList, Call.print ['w']] [Arg.int 3])
    ∧ (∃ consumed : List Arg,
        [Arg.int 55, Arg.str ['w'], Arg.int 3] = consumed ++ [Arg.int 3]
        ∧ consumed.length
            = ((printk_directives 5 "%d%q%%%s".toList (strlen "%d%q%%%s".toList)
                  (printk_start [Arg.int 55, Arg.str ['w'], Arg.int 3])).filter
                (fun s => consumes_argument s.type)).length)
    ∧ ((printk_directives 5 "%d%q%%%s".toList (strlen "%d%q%%%s".toList)
          (printk_start [Arg.int 55, Arg.str ['w'], Arg.int 3])).map (fun s => s.type)
        = ['d', 'q', '%', 's']) :=
  ⟨by decide,
    (argument_cursor 5 "%d%q%%%s".toList [Arg.int 55, Arg.str ['w'], Arg.int 3]
      [Call.print "55".toList, Call.print "55".toList, Call.print ['%'],
        Call.print "55".toList, Call.print ['w']] [Arg.int 3] (by decide)).1,
    by decide⟩

theorem deref_drop_strlen (format : List Char) : deref (format.drop (strlen format)) = NUL := by
  induction format with
  | nil => rfl
  | cons c format ih =>
    by_cases hc : c = NUL
    · have : strlen (c :: format) = 0 := by simp [strlen, c_str, hc]
      rw [this]; simp [deref, hc]
    · have : strlen (c :: format) = strlen format + 1 := by simp [strlen, c_str, hc]
      rw [this]; simpa using ih

theorem deref_drop_lt_strlen (format : List Char) : ∀ i : Nat, i < strlen format →
    deref (format.drop i) ≠ NUL := by
  induction format with
  | nil => intro i h; simp [strlen, c_str] at h
  | cons c format ih =>
    intro i h
    by_cases hc : c = NUL
    · have : strlen (c :: format) = 0 := by simp [strlen, c_str, hc]
      omega
    · have hs : strlen (c :: format) = strlen format + 1 := by simp [strlen, c_str, hc]
      cases i with
      | zero => simpa [deref] using hc
      | succ i => simpa using ih i (by omega)

theorem format_at_some (format : List Char) (index : Int) (c : Char)
    (h : format_at format index = some c) :
    0 ≤ index ∧ c = deref (format.drop index.toNat) := by
  unfold format_at at h
  split_ifs at h with hb
  simp only [Option.some.injEq] at h
  exact ⟨hb.1, h.symm⟩

/-- A cursor within 0..strlen that stands on a character other than NUL is below
strlen. -/
theorem cursor_lt_strlen (format : List Char) (index : Int) (c : Char)
    (h : format_at format index = some c) (hc : c ≠ NUL)
    (hle : index ≤ (strlen format : Int)) : index < (strlen format : Int) := by
  obtain ⟨h0, hd⟩ := format_at_some format index c h
  rcases lt_or_eq_of_le hle with hlt | heq
  · exact hlt
  · exfalso
    have : index.toNat = strlen format := by omega
    rw [this, deref_drop_strlen] at hd
    exact hc hd

/-- A count of at least 1 returned by `parse_specifier` at an index below `len`
keeps the cursor within `len`. -/
theorem parse_specifier_count_le (format : List Char) (start len : Nat) (specifier : Specifier)
    (hstart : start < len)
    (h1 : 1 ≤ (parse_specifier format start len specifier).1) :
    (start : Int) + (parse_specifier format start len specifier).1 ≤ (len : Int) := by
  obtain ⟨k, hk⟩ : ∃ k, k = if parse_flag (deref (format.drop (start + 1))) ≠ Flags.FLAGS_NONE
      then 1 else 0 := ⟨_, rfl⟩
  obtain ⟨w, hw⟩ : ∃ w, w = printk_parse_width (format.drop (start + 1 + k)) := ⟨_, rfl⟩
  obtain ⟨p, hp⟩ : ∃ p, p = printk_parse_precision (format.drop (start + 1 + k + w.2)) :=
    ⟨_, rfl⟩
  rw [parse_specifier_eq format start len specifier k hk w hw p hp] at h1 ⊢
  clear hk hw hp
  split_ifs at h1 ⊢
  · simp only []; omega
  · simp only [] at h1; omega
  · simp only [] at h1; omega
  · simp only [] at h1; omega
  · simp only []
    push_cast
    omega

theorem printk_switch_ne_none (specifier : Specifier) (st : State) :
    printk_switch specifier st ≠ none := by
  unfold printk_switch
  simp only []
  by_cases h1 : specifier.type = '%'
  · rw [if_pos h1]; simp
  · rw [if_neg h1]
    by_cases h2 : specifier.type = 'd' ∨ specifier.type = 'i' ∨ specifier.type = 'x'
        ∨ specifier.type = 'X' ∨ specifier.type = 'p'
    · rw [if_pos h2]
      generalize (if specifier.type = 'd' ∨ specifier.type = 'i' then (10 : Int) else 16) = base
      generalize (if specifier.type = 'd' ∨ specifier.type = 'i' then false
        else decide (specifier.type = 'X')) = uppercase
      cases va_arg_int st.args with
      | none => simp
      | some r =>
        obtain ⟨number, rest⟩ := r
        simp only []
        have := format_integer_returns st.format_buffer FORMAT_BUFFER_SIZE number base uppercase
          specifier
        cases hf : format_integer st.format_buffer FORMAT_BUFFER_SIZE number base uppercase
            specifier with
        | none => rw [hf] at this; simp at this
        | some f => simp
    · rw [if_neg h2]
      by_cases h3 : specifier.type = 's'
      · rw [if_pos h3]
        cases va_arg_str st.args with
        | none => simp
        | some r => simp
      · rw [if_neg h3]
        by_cases h4 : specifier.type = 'c'
        · rw [if_pos h4]
          cases va_arg_int st.args with
          | none => simp
          | some r => simp
        · rw [if_neg h4]; simp

/-- One iteration of the loop of `printk` always has a result. -/
theorem printk_step_ne_none (format : List Char) (len : Nat) (st : State) :
    printk_step format len st ≠ none := by
  unfold printk_step
  cases format_at format st.current_location with
  | none => simp
  | some c =>
    simp only []
    split_ifs
    · simp
    · generalize parse_specifier format st.current_location.toNat len
        ⟨0, 0, Flags.FLAGS_NONE, NUL⟩ = parsed
      unfold printk_directive
      have hsw := printk_switch_ne_none parsed.2
        { st with current_location := st.current_location + parsed.1 }
      cases hs : printk_switch parsed.2
          { st with current_location := st.current_location + parsed.1 } with
      | none => exact absurd hs hsw
      | some r =>
        cases r with
        | error e => simp
        | ok st1 =>
          simp only []
          cases toprint_string st1 with
          | error e => simp
          | ok s => simp
    · simp

/-- One iteration of the loop of `printk` that goes on, from a cursor within
0..strlen, where `parse_specifier` returns a count of at least 1 if the cursor is
on a '%': the cursor strictly increases and stays within 0..strlen. -/
theorem printk_step_progress (format : List Char) (st next : State)
    (hparse : format_at format st.current_location = some '%' →
      1 ≤ (parse_specifier format st.current_location.toNat (strlen format)
            ⟨0, 0, Flags.FLAGS_NONE, NUL⟩).1)
    (h0 : 0 ≤ st.current_location) (hle : st.current_location ≤ (strlen format : Int))
    (hstep : printk_step format (strlen format) st = some (Step.loop next)) :
    st.current_location < next.current_location
      ∧ next.current_location ≤ (strlen format : Int) := by
  obtain ⟨c, hat, hc, hcase⟩ := printk_step_loop format (strlen format) st next hstep
  have hlt := cursor_lt_strlen format st.current_location c hat hc hle
  rcases hcase with ⟨_, _, hnext⟩ | ⟨hp, _, c2, hat2, hnext⟩
  · rw [hnext]; omega
  · have h1 := hparse (by rw [hat, hp])
    have hbound := parse_specifier_count_le format st.current_location.toNat (strlen format)
      ⟨0, 0, Flags.FLAGS_NONE, NUL⟩ (by omega) h1
    have hcast : ((st.current_location.toNat : Nat) : Int) = st.current_location := by omega
    rw [hcast] at hbound
    by_cases hc2 : c2 ≠ NUL
    · rw [if_pos hc2] at hnext
      have := cursor_lt_strlen format _ c2 hat2 hc2 hbound
      rw [hnext]; omega
    · rw [if_neg hc2] at hnext
      rw [hnext]; omega

/-- C18: driver progress.  For every format string in which `parse_specifier`
returns a count of at least 1 at every '%' at which an iteration of the loop of
`printk` starts, the cursor `current_location` stays within 0..len (len the
length `strlen` gives), strictly increases on every iteration, the loop is left
through its condition only with the cursor on the terminator at len, and the
call ends within len iterations and the final test of the condition. -/
theorem driver_progress (format : List Char) (args : List Arg)
    (hparse : ∀ st : State,
      printk_reaches format (strlen format) (printk_start args) st →
      format_at format st.current_location = some '%' →
      1 ≤ (parse_specifier format st.current_location.toNat (strlen format)
            ⟨0, 0, Flags.FLAGS_NONE, NUL⟩).1) :
    (∀ st : State, printk_reaches format (strlen format) (printk_start args) st →
        0 ≤ st.current_location ∧ st.current_location ≤ (strlen format : Int))
    ∧ (∀ st next : State, printk_reaches format (strlen format) (printk_start args) st →
        printk_step format (strlen format) st = some (Step.loop next) →
        st.current_location < next.current_location)
    ∧ (∀ st final : State, printk_reaches format (strlen format) (printk_start args) st →
        printk_step format (strlen format) st = some (Step.returned final) →
        final.current_location = (strlen format : Int))
    ∧ ∃ outcome : Outcome, printk (strlen format + 1) format args = some outcome := by
  have hinv : ∀ st : State, printk_reaches format (strlen format) (printk_start args) st →
      0 ≤ st.current_location ∧ st.current_location ≤ (strlen format : Int) := by
    intro st hr
    induction hr with
    | start => exact ⟨le_refl _, by simp [printk_start]⟩
    | step st next hr hstep ih =>
      have := printk_step_progress format st next (hparse st hr) ih.1 ih.2 hstep
      omega
  refine ⟨hinv, ?_, ?_, ?_⟩
  · intro st next hr hstep
    exact (printk_step_progress format st next (hparse st hr) (hinv st hr).1 (hinv st hr).2
      hstep).1
  · intro st final hr hstep
    obtain ⟨hfin, hat⟩ := printk_step_returned format (strlen format) st final hstep
    subst hfin
    obtain ⟨h0, hle⟩ := hinv final hr
    obtain ⟨_, hd⟩ := format_at_some format _ _ hat
    rcases lt_or_eq_of_le hle with hlt | heq
    · exfalso
      exact deref_drop_lt_strlen format final.current_location.toNat (by omega) hd.symm
    · exact heq
  · have hterm : ∀ (fuel : Nat) (st : State),
        printk_reaches format (strlen format) (printk_start args) st →
        (strlen format : Int) - st.current_location < (fuel : Int) →
        ∃ outcome : Outcome, printk_loop fuel format (strlen format) st = some outcome := by
      intro fuel
      induction fuel with
      | zero =>
        intro st hr hf
        have := (hinv st hr).2
        simp only [Nat.cast_zero] at hf
        omega
      | succ fuel ih =>
        intro st hr hf
        rw [printk_loop]
        cases hstep : printk_step format (strlen format) st with
        | none => exact absurd hstep (printk_step_ne_none format (strlen format) st)
        | some r =>
          cases r with
          | returned final => exact ⟨_, rfl⟩
          | undefined why final => exact ⟨_, rfl⟩
          | loop next =>
            simp only []
            have hprog := printk_step_progress format st next (hparse st hr) (hinv st hr).1
              (hinv st hr).2 hstep
            exact ih next (printk_reaches.step st next hr hstep) (by push_cast at hf; omega)
    exact hterm (strlen format + 1) (printk_start args) printk_reaches.start
      (by simp [printk_start])

/-- Driver progress at the format "x%dy" with one argument: the only '%' is at
index 1, where `parse_specifier` returns 1, and the call ends within 5
iterations. -/
theorem driver_progress_witness :
    (∀ st : State,
      printk_reaches "x%dy".toList (strlen "x%dy".toList) (printk_start [Arg.int 7]) st →
      format_at "x%dy".toList st.current_location = some '%' →
      1 ≤ (parse_specifier "x%dy".toList st.current_location.toNat (strlen "x%dy".toList)
            ⟨0, 0, Flags.FLAGS_NONE, NUL⟩).1)
    ∧ ∃ outcome : Outcome,
        printk (strlen "x%dy".toList + 1) "x%dy".toList [Arg.int 7] = some outcome := by
  have hp : ∀ st : State,
      printk_reaches "x%dy".toList (strlen "x%dy".toList) (printk_start [Arg.int 7]) st →
      format_at "x%dy".toList st.current_location = some '%' →
      1 ≤ (parse_specifier "x%dy".toList st.current_location.toNat (strlen "x%dy".toList)
            ⟨0, 0, Flags.FLAGS_NONE, NUL⟩).1 := by
    intro st _ hat
    have hb : 0 ≤ st.current_location ∧ st.current_location ≤ 4 := by
      unfold format_at at hat
      split_ifs at hat with hb
      exact hb
    obtain ⟨n, hn⟩ : ∃ n : Nat, st.current_location = (n : Int) :=
      ⟨st.current_location.toNat, by omega⟩
    rw [hn] at hat ⊢
    have hn4 : n ≤ 4 := by omega
    interval_cases n
    · exact absurd hat (by decide)
    · decide
    · exact absurd hat (by decide)
    · exact absurd hat (by decide)
    · exact absurd hat (by decide)
  exact ⟨hp, (driver_progress "x%dy".toList [Arg.int 7] hp).2.2.2⟩

end Printk
